import Mathlib

/-!
# Document mutation API of `pkg/core/document.go`

A shallow embedding of the methods that `document.go` attaches to `Document`,
together with the properties of those methods.

Conventions of the embedding.

* A Go method `func (d *Document) M(args) error` mutates `d` and returns an
  error value.  It is embedded as a function from the document before the call
  and the arguments to an `Outcome`: `none` when the call stops with a run-time
  fault (index out of range, slice bounds out of range, assignment to an entry
  of a nil map), and `some (d', e)` when the call returns, where `d'` is the
  document after the call and `e` is the returned error (`none` for Go's `nil`).
* A nil-able pointer field is an `Option`.
* A slice is a `List`; the nil slice and the empty slice are both `[]`.
* Go's `int` is 64 bits wide.  Indices are integers, and the one arithmetic
  operation of the file, `index+1`, wraps around (`wrapInt`).  The length of a
  slice is itself an `int`, so `len s ≤ maxInt` holds of every slice a program
  can hold; a statement that needs `index+1` not to wrap takes it as a
  hypothesis.
-/

namespace Core

/-! ## Machine integers and slices -/

/-- The largest value of Go's 64-bit `int`. -/
def maxInt : Int := 2 ^ 63 - 1

/-- Two's-complement wrap-around of an integer into the range of Go's `int`. -/
def wrapInt (x : Int) : Int := (x + 2 ^ 63) % 2 ^ 64 - 2 ^ 63

/-- Go's `len(s)` on a slice. -/
def len {α : Type} (s : List α) : Int := (s.length : Int)

/-- Go's `s[i] = v`: a run-time fault (`none`) unless `0 <= i < len(s)`. -/
def storeAt {α : Type} (s : List α) (i : Int) (v : α) : Option (List α) :=
  if 0 ≤ i ∧ i < len s then some (s.set i.toNat v) else none

/-- Go's `s[i].f = x`, given as the field update `upd`: the element at `i` is
read, updated and written back; a run-time fault (`none`) unless
`0 <= i < len(s)`. -/
def modifyAt {α : Type} (s : List α) (i : Int) (upd : α → α) : Option (List α) :=
  if 0 ≤ i ∧ i < len s then
    match s[i.toNat]? with
    | some x => some (s.set i.toNat (upd x))
    | none => none
  else none

/-- Go's `s[:hi]`: a run-time fault (`none`) unless `0 <= hi <= len(s)` (Go
allows `hi` up to the capacity; the length is the bound that holds for every
capacity). -/
def sliceTo {α : Type} (s : List α) (hi : Int) : Option (List α) :=
  if 0 ≤ hi ∧ hi ≤ len s then some (s.take hi.toNat) else none

/-- Go's `s[lo:]`: a run-time fault (`none`) unless `0 <= lo <= len(s)`. -/
def sliceFrom {α : Type} (s : List α) (lo : Int) : Option (List α) :=
  if 0 ≤ lo ∧ lo ≤ len s then some (s.drop lo.toNat) else none

/-! ## Maps with string keys -/

/-- A Go `map[string]ν`: either the nil map or a created map, which is a finite
mapping with unique keys and no order. -/
inductive GoMap (ν : Type) where
  | nil : GoMap ν
  | created (entries : Finmap (fun _ : String => ν)) : GoMap ν

namespace GoMap

variable {ν : Type}

/-- Go's `make(map[string]ν)`. -/
def make : GoMap ν := created ∅

/-- The entry of a map for a key, if there is one; reading the nil map finds
no entry. -/
def lookup (m : GoMap ν) (key : String) : Option ν :=
  match m with
  | nil => none
  | created es => es.lookup key

/-- The entries of a map; the nil map has none. -/
def entries (m : GoMap ν) : Finmap (fun _ : String => ν) :=
  match m with
  | nil => ∅
  | created es => es

/-- Go's `len(m)`, the number of entries. -/
def size (m : GoMap ν) : Nat :=
  match m with
  | nil => 0
  | created es => es.keys.card

/-- Go's `m[key] = v`: a run-time fault (`none`) on the nil map. -/
def store (m : GoMap ν) (key : String) (v : ν) : Option (GoMap ν) :=
  match m with
  | nil => none
  | created es => some (created (es.insert key v))

/-- Go's `delete(m, key)`: no effect on the nil map or on a missing key. -/
def delete (m : GoMap ν) (key : String) : GoMap ν :=
  match m with
  | nil => nil
  | created es => created (es.erase key)

end GoMap

/-! ## Data model -/

/-- Modelled from the spec: the declaration of `ItemStatus` is not in the
source; it is a status value that this code only stores. -/
abbrev ItemStatus := String

/-- Modelled from the spec: the declaration of `PhaseStatus` is not in the
source; it is a status value that this code only stores. -/
abbrev PhaseStatus := String

/-- Modelled from the spec: the declaration of `PlanStatus` is not in the
source; it is a status value that this code only stores. -/
abbrev PlanStatus := String

/-- Modelled from the spec: the error values `ErrNoTodoList`, `ErrNoPlan` and
`ErrInvalidIndex` are declared outside the source; they are three distinct
error kinds. -/
inductive DocError where
  | ErrNoTodoList
  | ErrNoPlan
  | ErrInvalidIndex
  deriving DecidableEq, Repr

/-- Modelled from the spec: the declaration of `TodoItem` is not in the source;
it has a `Status` field, and the fields this code never names are kept
together in `Rest`, of an arbitrary type. -/
structure TodoItem (ι : Type) where
  Status : ItemStatus
  Rest : ι

/-- Modelled from the spec: the declaration of `TodoList` is not in the source;
it owns the ordered sequence `Items`. -/
structure TodoList (ι : Type) where
  Items : List (TodoItem ι)

/-- Modelled from the spec: the declaration of `Phase` is not in the source; it
has a `Status` field, and the fields this code never names are kept together
in `Rest`, of an arbitrary type. -/
structure Phase (φ : Type) where
  Status : PhaseStatus
  Rest : φ

/-- Modelled from the spec: the declaration of `Plan` is not in the source; it
owns the ordered sequence `Phases`, the mapping `Narratives` from string keys
to narratives (an arbitrary type `ν`), and a `Status`. -/
structure Plan (φ ν : Type) where
  Phases : List (Phase φ)
  Narratives : GoMap ν
  Status : PlanStatus

/-- Modelled from the spec: the declaration of `Document` is not in the source;
it owns an optional `TodoList` and an optional `Plan`. -/
structure Document (ι φ ν : Type) where
  TodoList : Option (TodoList ι)
  Plan : Option (Plan φ ν)

/-- What a call of a mutating method does: `none` is a run-time fault,
`some (d, e)` is a return with the document `d` after the call and the error
`e` (`none` for Go's `nil` error). -/
abbrev Outcome (δ : Type) := Option (δ × Option DocError)

variable {ι φ ν : Type}

/-! ## Methods of `TodoList` used by `document.go` -/

/-- Modelled from the spec: `TodoList.AddItem` is not in the source; it appends
the item to the end of the sequence. -/
def TodoList.AddItem (l : TodoList ι) (item : TodoItem ι) : TodoList ι :=
  { l with Items := l.Items ++ [item] }

/-- Modelled from the spec: `TodoList.UpdateItem` is not in the source; it
fails with `ErrInvalidIndex` when the index is outside `[0, len)`, and
otherwise applies the given update to the item at the index. -/
def TodoList.UpdateItem (l : TodoList ι) (index : Int)
    (upd : TodoItem ι → TodoItem ι) : TodoList ι × Option DocError :=
  if index < 0 ∨ index ≥ len l.Items then (l, some DocError.ErrInvalidIndex)
  else
    match l.Items[index.toNat]? with
    | some x => ({ l with Items := l.Items.set index.toNat (upd x) }, none)
    | none => (l, some DocError.ErrInvalidIndex)

/-- Modelled from the spec: `TodoList.RemoveItem` is not in the source; it
fails with `ErrInvalidIndex` when the index is outside `[0, len)`, and
otherwise deletes the item at the index, shifting the later items left. -/
def TodoList.RemoveItem (l : TodoList ι) (index : Int) :
    TodoList ι × Option DocError :=
  if index < 0 ∨ index ≥ len l.Items then (l, some DocError.ErrInvalidIndex)
  else ({ l with Items := l.Items.eraseIdx index.toNat }, none)

/-! ## Methods of `Document` (`document.go`) -/

namespace Document

/-- Method `Document.AddTodoItem` (document.go, lines 5-13). -/
def AddTodoItem (d : Document ι φ ν) (item : TodoItem ι) : Outcome (Document ι φ ν) :=
  match d.TodoList with
  | none => some (d, some DocError.ErrNoTodoList)
  | some l => some ({ d with TodoList := some (l.AddItem item) }, none)

/-- Method `Document.UpdateTodoItem` (document.go, lines 15-24). -/
def UpdateTodoItem (d : Document ι φ ν) (index : Int) (item : TodoItem ι) :
    Outcome (Document ι φ ν) :=
  match d.TodoList with
  | none => some (d, some DocError.ErrNoTodoList)
  | some l =>
    let r := l.UpdateItem index (fun _ => item)
    some ({ d with TodoList := some r.1 }, r.2)

/-- Method `Document.UpdateTodoItemStatus` (document.go, lines 26-34). -/
def UpdateTodoItemStatus (d : Document ι φ ν) (index : Int) (status : ItemStatus) :
    Outcome (Document ι φ ν) :=
  match d.TodoList with
  | none => some (d, some DocError.ErrNoTodoList)
  | some l =>
    let r := l.UpdateItem index (fun item => { item with Status := status })
    some ({ d with TodoList := some r.1 }, r.2)

/-- Method `Document.RemoveTodoItem` (document.go, lines 36-42). -/
def RemoveTodoItem (d : Document ι φ ν) (index : Int) : Outcome (Document ι φ ν) :=
  match d.TodoList with
  | none => some (d, some DocError.ErrNoTodoList)
  | some l =>
    let r := l.RemoveItem index
    some ({ d with TodoList := some r.1 }, r.2)

/-- Method `Document.GetTodoItems` (document.go, lines 44-50). -/
def GetTodoItems (d : Document ι φ ν) : List (TodoItem ι) :=
  match d.TodoList with
  | none => []
  | some l => l.Items

/-- Method `Document.AddPhase` (document.go, lines 52-59). -/
def AddPhase (d : Document ι φ ν) (phase : Phase φ) : Outcome (Document ι φ ν) :=
  match d.Plan with
  | none => some (d, some DocError.ErrNoPlan)
  | some p => some ({ d with Plan := some { p with Phases := p.Phases ++ [phase] } }, none)

/-- Method `Document.UpdatePhase` (document.go, lines 61-68). -/
def UpdatePhase (d : Document ι φ ν) (index : Int) (phase : Phase φ) :
    Outcome (Document ι φ ν) :=
  match d.Plan with
  | none => some (d, some DocError.ErrInvalidIndex)
  | some p =>
    if index < 0 ∨ index ≥ len p.Phases then some (d, some DocError.ErrInvalidIndex)
    else
      match storeAt p.Phases index phase with
      | none => none
      | some phases => some ({ d with Plan := some { p with Phases := phases } }, none)

/-- Method `Document.UpdatePhaseStatus` (document.go, lines 70-77). -/
def UpdatePhaseStatus (d : Document ι φ ν) (index : Int) (status : PhaseStatus) :
    Outcome (Document ι φ ν) :=
  match d.Plan with
  | none => some (d, some DocError.ErrInvalidIndex)
  | some p =>
    if index < 0 ∨ index ≥ len p.Phases then some (d, some DocError.ErrInvalidIndex)
    else
      match modifyAt p.Phases index (fun ph => { ph with Status := status }) with
      | none => none
      | some phases => some ({ d with Plan := some { p with Phases := phases } }, none)

/-- Method `Document.RemovePhase` (document.go, lines 79-86). -/
def RemovePhase (d : Document ι φ ν) (index : Int) : Outcome (Document ι φ ν) :=
  match d.Plan with
  | none => some (d, some DocError.ErrInvalidIndex)
  | some p =>
    if index < 0 ∨ index ≥ len p.Phases then some (d, some DocError.ErrInvalidIndex)
    else
      match sliceTo p.Phases index with
      | none => none
      | some front =>
        match sliceFrom p.Phases (wrapInt (index + 1)) with
        | none => none
        | some back =>
          some ({ d with Plan := some { p with Phases := front ++ back } }, none)

/-- Method `Document.AddNarrative` (document.go, lines 88-98). -/
def AddNarrative (d : Document ι φ ν) (key : String) (narrative : ν) :
    Outcome (Document ι φ ν) :=
  match d.Plan with
  | none => some (d, some DocError.ErrNoPlan)
  | some p =>
    let p1 : Core.Plan φ ν :=
      match p.Narratives with
      | GoMap.nil => { p with Narratives := GoMap.make }
      | GoMap.created _ => p
    match p1.Narratives.store key narrative with
    | none => none
    | some m => some ({ d with Plan := some { p1 with Narratives := m } }, none)

/-- Method `Document.RemoveNarrative` (document.go, lines 100-107). -/
def RemoveNarrative (d : Document ι φ ν) (key : String) : Outcome (Document ι φ ν) :=
  match d.Plan with
  | none => some (d, some DocError.ErrNoPlan)
  | some p =>
    some ({ d with Plan := some { p with Narratives := p.Narratives.delete key } }, none)

/-- Method `Document.UpdatePlanStatus` (document.go, lines 109-116). -/
def UpdatePlanStatus (d : Document ι φ ν) (status : PlanStatus) : Outcome (Document ι φ ν) :=
  match d.Plan with
  | none => some (d, some DocError.ErrNoPlan)
  | some p => some ({ d with Plan := some { p with Status := status } }, none)

/-- Method `Document.GetPhases` (document.go, lines 118-124). -/
def GetPhases (d : Document ι φ ν) : List (Phase φ) :=
  match d.Plan with
  | none => []
  | some p => p.Phases

/-- Method `Document.GetNarratives` (document.go, lines 126-132). -/
def GetNarratives (d : Document ι φ ν) : GoMap ν :=
  match d.Plan with
  | none => GoMap.nil
  | some p => p.Narratives

end Document

/-! ## Predicates on outcomes -/

/-- The call with outcome `r` returns, its error is `err` exactly when `bad`
holds, and it is no error when `bad` does not hold. -/
def ReturnsErrorIff (r : Outcome (Document ι φ ν)) (err : DocError) (bad : Prop) : Prop :=
  ∃ (d1 : Document ι φ ν) (e : Option DocError),
    r = some (d1, e) ∧ (e = some err ↔ bad) ∧ (¬ bad → e = none)

/-- The call with outcome `r` does not return the error `err`. -/
def NeverReturns (r : Outcome (Document ι φ ν)) (err : DocError) : Prop :=
  ∀ d1 : Document ι φ ν, r ≠ some (d1, some err)

/-- Whenever the call with outcome `r`, made on the document `d`, returns an
error, the document after the call is `d`. -/
def UnchangedOnError (d : Document ι φ ν) (r : Outcome (Document ι φ ν)) : Prop :=
  ∀ (d1 : Document ι φ ν) (e : DocError), r = some (d1, some e) → d1 = d

/-- Whenever the call with outcome `r`, made on the document `d`, returns (with
or without an error), the relation `keep` holds between `d` and the document
after the call. -/
def KeepsOnReturn (d : Document ι φ ν) (r : Outcome (Document ι φ ν))
    (keep : Document ι φ ν → Document ι φ ν → Prop) : Prop :=
  ∀ (d1 : Document ι φ ν) (e : Option DocError), r = some (d1, e) → keep d d1

/-- The todo list of `d1`, and so the result of `GetTodoItems`, is that of `d`. -/
def SameTodoList (d d1 : Document ι φ ν) : Prop :=
  d1.TodoList = d.TodoList ∧ d1.GetTodoItems = d.GetTodoItems

/-- The narrative mapping and the plan status of `d1` are those of `d`. -/
def SameNarrativesAndStatus (d d1 : Document ι φ ν) : Prop :=
  d1.Plan.map Plan.Narratives = d.Plan.map Plan.Narratives ∧
  d1.GetNarratives = d.GetNarratives ∧
  d1.Plan.map Plan.Status = d.Plan.map Plan.Status

/-- The phase sequence and the plan status of `d1` are those of `d`. -/
def SamePhasesAndStatus (d d1 : Document ι φ ν) : Prop :=
  d1.Plan.map Plan.Phases = d.Plan.map Plan.Phases ∧
  d1.GetPhases = d.GetPhases ∧
  d1.Plan.map Plan.Status = d.Plan.map Plan.Status

/-- The plan is present in `d1` exactly when it is in `d`, and so is the todo
list. -/
def SamePresence (d d1 : Document ι φ ν) : Prop :=
  (d1.Plan.isSome = d.Plan.isSome) ∧ (d1.TodoList.isSome = d.TodoList.isSome)

/-! ## Sample documents -/

/-- A plan with the three phases `p0`, `p1`, `p2` (told apart by `Rest`) whose
narrative mapping has not been created. -/
def samplePlan : Plan Nat String :=
  { Phases := [⟨"pending", 0⟩, ⟨"pending", 1⟩, ⟨"pending", 2⟩]
    Narratives := GoMap.nil
    Status := "draft" }

/-- A document that has the plan `samplePlan` and no todo list. -/
def sampleDoc : Document Nat Nat String :=
  { TodoList := none, Plan := some samplePlan }

/-- A plan with one phase and the one narrative `intro`. -/
def narratedPlan : Plan Nat String :=
  { Phases := [⟨"pending", 0⟩]
    Narratives := GoMap.created (Finmap.singleton "intro" "text")
    Status := "draft" }

/-- A document that has the plan `narratedPlan` and an empty todo list. -/
def narratedDoc : Document Nat Nat String :=
  { TodoList := some { Items := [] }, Plan := some narratedPlan }

/-- A document with the two todo items `item0`, `item1` (told apart by `Rest`),
both pending, and no plan. -/
def todoDoc : Document Nat Nat String :=
  { TodoList := some { Items := [⟨"pending", 0⟩, ⟨"pending", 1⟩] }, Plan := none }

/-- A document with neither a todo list nor a plan. -/
def bareDoc : Document Nat Nat String :=
  { TodoList := none, Plan := none }

/-! ## Auxiliary facts about the slice operations -/

theorem wrapInt_of_inRange (x : Int) (h1 : -(2 ^ 63) ≤ x) (h2 : x ≤ maxInt) :
    wrapInt x = x := by
  unfold wrapInt
  unfold maxInt at h2
  rw [Int.emod_eq_of_lt (by omega) (by omega)]
  omega

theorem storeAt_inBounds {α : Type} (s : List α) (i : Int) (v : α)
    (h0 : 0 ≤ i) (hi : i < len s) : storeAt s i v = some (s.set i.toNat v) := by
  simp [storeAt, h0, hi]

theorem toNat_lt_length {α : Type} (s : List α) (i : Int)
    (h0 : 0 ≤ i) (hi : i < len s) : i.toNat < s.length := by
  unfold len at hi
  omega

theorem modifyAt_inBounds {α : Type} (s : List α) (i : Int) (upd : α → α)
    (h0 : 0 ≤ i) (hi : i < len s) :
    ∃ x, s[i.toNat]? = some x ∧ modifyAt s i upd = some (s.set i.toNat (upd x)) := by
  have hlt := toNat_lt_length s i h0 hi
  refine ⟨s[i.toNat], List.getElem?_eq_getElem hlt, ?_⟩
  simp [modifyAt, h0, hi, List.getElem?_eq_getElem hlt]

theorem sliceTo_inBounds {α : Type} (s : List α) (i : Int)
    (h0 : 0 ≤ i) (hi : i ≤ len s) : sliceTo s i = some (s.take i.toNat) := by
  simp [sliceTo, h0, hi]

theorem sliceFrom_inBounds {α : Type} (s : List α) (i : Int)
    (h0 : 0 ≤ i) (hi : i ≤ len s) : sliceFrom s i = some (s.drop i.toNat) := by
  simp [sliceFrom, h0, hi]

/-! ## What each phase operation does on a valid index -/

theorem RemovePhase_valid (d : Document ι φ ν) (p : Plan φ ν) (i : Int)
    (hp : d.Plan = some p) (h0 : 0 ≤ i) (hi : i < len p.Phases)
    (hlen : len p.Phases ≤ maxInt) :
    d.RemovePhase i =
      some ({ d with Plan := some { p with Phases := p.Phases.eraseIdx i.toNat } }, none) := by
  have hw : wrapInt (i + 1) = i + 1 := wrapInt_of_inRange (i + 1) (by omega) (by omega)
  have hguard : ¬ (i < 0 ∨ i ≥ len p.Phases) := by omega
  have hto : (i + 1).toNat = i.toNat + 1 := by omega
  unfold Document.RemovePhase
  rw [hp]
  simp only [hguard, if_false, hw]
  rw [sliceTo_inBounds p.Phases i h0 (by omega),
    sliceFrom_inBounds p.Phases (i + 1) (by omega) (by omega), hto,
    List.eraseIdx_eq_take_drop_succ]

theorem UpdatePhase_valid (d : Document ι φ ν) (p : Plan φ ν) (i : Int) (phase : Phase φ)
    (hp : d.Plan = some p) (h0 : 0 ≤ i) (hi : i < len p.Phases) :
    d.UpdatePhase i phase =
      some ({ d with Plan := some { p with Phases := p.Phases.set i.toNat phase } }, none) := by
  have hguard : ¬ (i < 0 ∨ i ≥ len p.Phases) := by omega
  unfold Document.UpdatePhase
  rw [hp]
  simp only [hguard, if_false]
  rw [storeAt_inBounds p.Phases i phase h0 hi]

theorem UpdatePhaseStatus_valid (d : Document ι φ ν) (p : Plan φ ν) (i : Int)
    (status : PhaseStatus) (hp : d.Plan = some p) (h0 : 0 ≤ i) (hi : i < len p.Phases) :
    ∃ old, p.Phases[i.toNat]? = some old ∧
      d.UpdatePhaseStatus i status =
        some ({ d with Plan := some { p with
          Phases := p.Phases.set i.toNat { old with Status := status } } }, none) := by
  have hguard : ¬ (i < 0 ∨ i ≥ len p.Phases) := by omega
  obtain ⟨old, hold, hmod⟩ :=
    modifyAt_inBounds p.Phases i (fun ph => { ph with Status := status }) h0 hi
  refine ⟨old, hold, ?_⟩
  unfold Document.UpdatePhaseStatus
  rw [hp]
  simp only [hguard, if_false]
  rw [hmod]

theorem phaseOp_invalid (d : Document ι φ ν) (i : Int)
    (h : d.Plan = none ∨ ∃ p, d.Plan = some p ∧ (i < 0 ∨ i ≥ len p.Phases)) :
    (∀ phase, d.UpdatePhase i phase = some (d, some DocError.ErrInvalidIndex)) ∧
    (∀ status, d.UpdatePhaseStatus i status = some (d, some DocError.ErrInvalidIndex)) ∧
    d.RemovePhase i = some (d, some DocError.ErrInvalidIndex) := by
  rcases h with h | ⟨p, hp, hi⟩
  · simp [Document.UpdatePhase, Document.UpdatePhaseStatus, Document.RemovePhase, h]
  · simp [Document.UpdatePhase, Document.UpdatePhaseStatus, Document.RemovePhase, hp, hi]

/-! ## Phase operations: results on valid and invalid indices -/

/-- C1: on a document whose plan is present with phases `ps`, for an index `i`
with `0 <= i < len(ps)`, `RemovePhase(i)` returns no error and afterwards
`GetPhases()` is `ps` with exactly the element at `i` deleted: one element
shorter, equal to `ps` at every position before `i`, and equal to `ps` one
position further at every position from `i` on. -/
theorem C1_RemovePhase_deletes_exactly_index (d : Document ι φ ν) (p : Plan φ ν) (i : Int)
    (hp : d.Plan = some p) (h0 : 0 ≤ i) (hi : i < len p.Phases)
    (hlen : len p.Phases ≤ maxInt) :
    ∃ d1 : Document ι φ ν, d.RemovePhase i = some (d1, none) ∧
      d1.GetPhases.length + 1 = p.Phases.length ∧
      (∀ j : Nat, j < i.toNat → d1.GetPhases[j]? = p.Phases[j]?) ∧
      (∀ j : Nat, i.toNat ≤ j → d1.GetPhases[j]? = p.Phases[j + 1]?) ∧
      d1.GetPhases = p.Phases.eraseIdx i.toNat := by
  have hlt := toNat_lt_length p.Phases i h0 hi
  refine ⟨_, RemovePhase_valid d p i hp h0 hi hlen, ?_, ?_, ?_, ?_⟩
  · simp only [Document.GetPhases]
    rw [List.length_eraseIdx_of_lt hlt]
    omega
  · intro j hj
    simp only [Document.GetPhases]
    exact List.getElem?_eraseIdx_of_lt _ _ _ hj
  · intro j hj
    simp only [Document.GetPhases]
    exact List.getElem?_eraseIdx_of_ge _ _ _ hj
  · rfl

/-- C1, at the document with phases `[p0, p1, p2]` and index 1. -/
theorem C1_RemovePhase_deletes_exactly_index_witness :
    ∃ d1 : Document Nat Nat String, sampleDoc.RemovePhase 1 = some (d1, none) ∧
      d1.GetPhases.length + 1 = samplePlan.Phases.length ∧
      (∀ j : Nat, j < (1 : Int).toNat → d1.GetPhases[j]? = samplePlan.Phases[j]?) ∧
      (∀ j : Nat, (1 : Int).toNat ≤ j → d1.GetPhases[j]? = samplePlan.Phases[j + 1]?) ∧
      d1.GetPhases = samplePlan.Phases.eraseIdx (1 : Int).toNat :=
  C1_RemovePhase_deletes_exactly_index sampleDoc samplePlan 1 rfl (by decide) (by decide)
    (by decide)

/-- C2: `UpdatePhase`, `UpdatePhaseStatus` and `RemovePhase` each return, and
the error they return is `ErrInvalidIndex` exactly when the plan is absent or
the index is negative or at least the number of phases; otherwise it is no
error; it is never `ErrNoPlan`. -/
theorem C2_phase_ops_InvalidIndex_iff (d : Document ι φ ν) (i : Int)
    (phase : Phase φ) (status : PhaseStatus)
    (hlen : len d.GetPhases ≤ maxInt) :
    (ReturnsErrorIff (d.UpdatePhase i phase) DocError.ErrInvalidIndex
        (d.Plan = none ∨ i < 0 ∨ i ≥ len d.GetPhases) ∧
      ReturnsErrorIff (d.UpdatePhaseStatus i status) DocError.ErrInvalidIndex
        (d.Plan = none ∨ i < 0 ∨ i ≥ len d.GetPhases) ∧
      ReturnsErrorIff (d.RemovePhase i) DocError.ErrInvalidIndex
        (d.Plan = none ∨ i < 0 ∨ i ≥ len d.GetPhases)) ∧
    (NeverReturns (d.UpdatePhase i phase) DocError.ErrNoPlan ∧
      NeverReturns (d.UpdatePhaseStatus i status) DocError.ErrNoPlan ∧
      NeverReturns (d.RemovePhase i) DocError.ErrNoPlan) := by
  by_cases hbad : d.Plan = none ∨ i < 0 ∨ i ≥ len d.GetPhases
  · have hinv : d.Plan = none ∨ ∃ p, d.Plan = some p ∧ (i < 0 ∨ i ≥ len p.Phases) := by
      cases hplan : d.Plan with
      | none => exact Or.inl rfl
      | some p =>
        refine Or.inr ⟨p, rfl, ?_⟩
        rcases hbad with h | h
        · rw [hplan] at h; cases h
        · simpa [Document.GetPhases, hplan] using h
    obtain ⟨h1, h2, h3⟩ := phaseOp_invalid d i hinv
    have key : ∀ r : Outcome (Document ι φ ν), r = some (d, some DocError.ErrInvalidIndex) →
        ReturnsErrorIff r DocError.ErrInvalidIndex
          (d.Plan = none ∨ i < 0 ∨ i ≥ len d.GetPhases) ∧
        NeverReturns r DocError.ErrNoPlan := by
      intro r hr
      refine ⟨⟨d, _, hr, ⟨fun _ => hbad, fun _ => rfl⟩, fun h => absurd hbad h⟩, ?_⟩
      intro d1 h
      rw [hr] at h
      cases h
    exact ⟨⟨(key _ (h1 phase)).1, (key _ (h2 status)).1, (key _ h3).1⟩,
      (key _ (h1 phase)).2, (key _ (h2 status)).2, (key _ h3).2⟩
  · have hsome : ∃ p, d.Plan = some p := by
      cases hplan : d.Plan with
      | none => exact absurd (Or.inl hplan) hbad
      | some p => exact ⟨p, rfl⟩
    obtain ⟨p, hplan⟩ := hsome
    have hget : d.GetPhases = p.Phases := by simp [Document.GetPhases, hplan]
    have hlen1 : len p.Phases ≤ maxInt := by rw [← hget]; exact hlen
    have h0 : 0 ≤ i := by
      by_contra h
      exact hbad (Or.inr (Or.inl (by omega)))
    have hi : i < len p.Phases := by
      by_contra h
      exact hbad (Or.inr (Or.inr (by rw [hget]; omega)))
    obtain ⟨old, -, hst⟩ := UpdatePhaseStatus_valid d p i status hplan h0 hi
    have key : ∀ (r : Outcome (Document ι φ ν)) (d1 : Document ι φ ν), r = some (d1, none) →
        ReturnsErrorIff r DocError.ErrInvalidIndex
          (d.Plan = none ∨ i < 0 ∨ i ≥ len d.GetPhases) ∧
        NeverReturns r DocError.ErrNoPlan := by
      intro r d1 hr
      refine ⟨⟨d1, none, hr, ⟨fun h => (by cases h), fun h => absurd h hbad⟩, fun _ => rfl⟩, ?_⟩
      intro d2 h
      rw [hr] at h
      cases h
    have k1 := key _ _ (UpdatePhase_valid d p i phase hplan h0 hi)
    have k2 := key _ _ hst
    have k3 := key _ _ (RemovePhase_valid d p i hplan h0 hi hlen1)
    exact ⟨⟨k1.1, k2.1, k3.1⟩, k1.2, k2.2, k3.2⟩

/-- C2, at the three-phase document and the index 3, which equals the number of
phases. -/
theorem C2_phase_ops_InvalidIndex_iff_witness :
    len sampleDoc.GetPhases ≤ maxInt ∧
    (ReturnsErrorIff (sampleDoc.UpdatePhase 3 ⟨"done", 7⟩) DocError.ErrInvalidIndex
        (sampleDoc.Plan = none ∨ (3 : Int) < 0 ∨ (3 : Int) ≥ len sampleDoc.GetPhases) ∧
      ReturnsErrorIff (sampleDoc.UpdatePhaseStatus 3 "done") DocError.ErrInvalidIndex
        (sampleDoc.Plan = none ∨ (3 : Int) < 0 ∨ (3 : Int) ≥ len sampleDoc.GetPhases) ∧
      ReturnsErrorIff (sampleDoc.RemovePhase 3) DocError.ErrInvalidIndex
        (sampleDoc.Plan = none ∨ (3 : Int) < 0 ∨ (3 : Int) ≥ len sampleDoc.GetPhases)) ∧
    (NeverReturns (sampleDoc.UpdatePhase 3 ⟨"done", 7⟩) DocError.ErrNoPlan ∧
      NeverReturns (sampleDoc.UpdatePhaseStatus 3 "done") DocError.ErrNoPlan ∧
      NeverReturns (sampleDoc.RemovePhase 3) DocError.ErrNoPlan) :=
  ⟨by decide, C2_phase_ops_InvalidIndex_iff sampleDoc 3 ⟨"done", 7⟩ "done" (by decide)⟩

/-- C9: on a document whose plan is present with `N` phases, for an index `i`
with `0 <= i < N` and any phase `q`, `UpdatePhase(i, q)` returns no error and
afterwards `GetPhases()` has length `N`, has `q` at position `i`, and has at
every other position the phase it had before. -/
theorem C9_UpdatePhase_replaces_at_index (d : Document ι φ ν) (p : Plan φ ν) (i : Int)
    (q : Phase φ) (hp : d.Plan = some p) (h0 : 0 ≤ i) (hi : i < len p.Phases) :
    ∃ d1 : Document ι φ ν, d.UpdatePhase i q = some (d1, none) ∧
      d1.GetPhases.length = p.Phases.length ∧
      d1.GetPhases[i.toNat]? = some q ∧
      (∀ j : Nat, j ≠ i.toNat → d1.GetPhases[j]? = p.Phases[j]?) := by
  have hlt := toNat_lt_length p.Phases i h0 hi
  refine ⟨_, UpdatePhase_valid d p i q hp h0 hi, ?_, ?_, ?_⟩
  · simp [Document.GetPhases]
  · simp [Document.GetPhases, hlt]
  · intro j hj
    simp only [Document.GetPhases]
    exact List.getElem?_set_ne (Ne.symm hj)

/-- C9, at the three-phase document, index 2 and a new phase. -/
theorem C9_UpdatePhase_replaces_at_index_witness :
    ∃ d1 : Document Nat Nat String, sampleDoc.UpdatePhase 2 ⟨"done", 9⟩ = some (d1, none) ∧
      d1.GetPhases.length = samplePlan.Phases.length ∧
      d1.GetPhases[(2 : Int).toNat]? = some ⟨"done", 9⟩ ∧
      (∀ j : Nat, j ≠ (2 : Int).toNat → d1.GetPhases[j]? = samplePlan.Phases[j]?) :=
  C9_UpdatePhase_replaces_at_index sampleDoc samplePlan 2 ⟨"done", 9⟩ rfl (by decide)
    (by decide)

/-- C10: on a document whose plan is present with `N` phases, for an index `i`
with `0 <= i < N` and any status `s`, `UpdatePhaseStatus(i, s)` returns no
error and afterwards the phase at position `i` has `Status = s` and the rest
of its fields as before, every phase at another position is unchanged, and the
number of phases is still `N`. -/
theorem C10_UpdatePhaseStatus_changes_only_status (d : Document ι φ ν) (p : Plan φ ν)
    (i : Int) (s : PhaseStatus) (hp : d.Plan = some p) (h0 : 0 ≤ i)
    (hi : i < len p.Phases) :
    ∃ (d1 : Document ι φ ν) (old new : Phase φ),
      d.UpdatePhaseStatus i s = some (d1, none) ∧
      p.Phases[i.toNat]? = some old ∧ d1.GetPhases[i.toNat]? = some new ∧
      new.Status = s ∧ new.Rest = old.Rest ∧
      (∀ j : Nat, j ≠ i.toNat → d1.GetPhases[j]? = p.Phases[j]?) ∧
      d1.GetPhases.length = p.Phases.length := by
  have hlt := toNat_lt_length p.Phases i h0 hi
  obtain ⟨old, hold, hst⟩ := UpdatePhaseStatus_valid d p i s hp h0 hi
  refine ⟨_, old, { old with Status := s }, hst, hold, ?_, rfl, rfl, ?_, ?_⟩
  · simp [Document.GetPhases, hlt]
  · intro j hj
    simp only [Document.GetPhases]
    exact List.getElem?_set_ne (Ne.symm hj)
  · simp [Document.GetPhases]

/-- C10, at the three-phase document, index 0 and the status `done`. -/
theorem C10_UpdatePhaseStatus_changes_only_status_witness :
    ∃ (d1 : Document Nat Nat String) (old new : Phase Nat),
      sampleDoc.UpdatePhaseStatus 0 "done" = some (d1, none) ∧
      samplePlan.Phases[(0 : Int).toNat]? = some old ∧
      d1.GetPhases[(0 : Int).toNat]? = some new ∧
      new.Status = "done" ∧ new.Rest = old.Rest ∧
      (∀ j : Nat, j ≠ (0 : Int).toNat → d1.GetPhases[j]? = samplePlan.Phases[j]?) ∧
      d1.GetPhases.length = samplePlan.Phases.length :=
  C10_UpdatePhaseStatus_changes_only_status sampleDoc samplePlan 0 "done" rfl (by decide)
    (by decide)

/-! ## Absent sub-aggregates and failure -/

theorem planOp_absent (d : Document ι φ ν) (h : d.Plan = none) :
    (∀ phase, d.AddPhase phase = some (d, some DocError.ErrNoPlan)) ∧
    (∀ key narrative, d.AddNarrative key narrative = some (d, some DocError.ErrNoPlan)) ∧
    (∀ key, d.RemoveNarrative key = some (d, some DocError.ErrNoPlan)) ∧
    (∀ status, d.UpdatePlanStatus status = some (d, some DocError.ErrNoPlan)) := by
  simp [Document.AddPhase, Document.AddNarrative, Document.RemoveNarrative,
    Document.UpdatePlanStatus, h]

theorem AddNarrative_present (d : Document ι φ ν) (p : Plan φ ν) (key : String)
    (narrative : ν) (hp : d.Plan = some p) :
    d.AddNarrative key narrative =
      some ({ d with Plan := some { p with
        Narratives := GoMap.created (p.Narratives.entries.insert key narrative) } }, none) := by
  unfold Document.AddNarrative
  rw [hp]
  cases hn : p.Narratives <;> simp [GoMap.store, GoMap.make, GoMap.entries, hn]

theorem planOp_present (d : Document ι φ ν) (p : Plan φ ν) (hp : d.Plan = some p) :
    (∀ phase, ∃ d1, d.AddPhase phase = some (d1, none)) ∧
    (∀ key narrative, ∃ d1, d.AddNarrative key narrative = some (d1, none)) ∧
    (∀ key, ∃ d1, d.RemoveNarrative key = some (d1, none)) ∧
    (∀ status, ∃ d1, d.UpdatePlanStatus status = some (d1, none)) := by
  refine ⟨fun phase => ?_, fun key narrative => ⟨_, AddNarrative_present d p key narrative hp⟩,
    fun key => ?_, fun status => ?_⟩
  · simp only [Document.AddPhase, hp]
    exact ⟨_, rfl⟩
  · simp only [Document.RemoveNarrative, hp]
    exact ⟨_, rfl⟩
  · simp only [Document.UpdatePlanStatus, hp]
    exact ⟨_, rfl⟩

theorem unchangedOnError_of_cases (d : Document ι φ ν) (r : Outcome (Document ι φ ν))
    (h : (∃ e, r = some (d, e)) ∨ ∃ d1, r = some (d1, none)) : UnchangedOnError d r := by
  intro d1 e hr
  rcases h with ⟨e1, h⟩ | ⟨d2, h⟩
  · rw [h] at hr
    simp only [Option.some.injEq, Prod.mk.injEq] at hr
    exact hr.1.symm
  · rw [h] at hr
    simp at hr

/-- C3: whenever `AddPhase`, `UpdatePhase`, `UpdatePhaseStatus`, `RemovePhase`,
`AddNarrative`, `RemoveNarrative` or `UpdatePlanStatus` returns an error, the
document after the call equals the document before the call. -/
theorem C3_plan_ops_unchanged_on_error (d : Document ι φ ν) (i : Int) (phase : Phase φ)
    (status : PhaseStatus) (key : String) (narrative : ν) (planStatus : PlanStatus) :
    UnchangedOnError d (d.AddPhase phase) ∧
    UnchangedOnError d (d.UpdatePhase i phase) ∧
    UnchangedOnError d (d.UpdatePhaseStatus i status) ∧
    UnchangedOnError d (d.RemovePhase i) ∧
    UnchangedOnError d (d.AddNarrative key narrative) ∧
    UnchangedOnError d (d.RemoveNarrative key) ∧
    UnchangedOnError d (d.UpdatePlanStatus planStatus) := by
  cases hplan : d.Plan with
  | none =>
    obtain ⟨a1, a2, a3, a4⟩ := planOp_absent d hplan
    obtain ⟨b1, b2, b3⟩ := phaseOp_invalid d i (Or.inl hplan)
    exact ⟨unchangedOnError_of_cases d _ (Or.inl ⟨_, a1 phase⟩),
      unchangedOnError_of_cases d _ (Or.inl ⟨_, b1 phase⟩),
      unchangedOnError_of_cases d _ (Or.inl ⟨_, b2 status⟩),
      unchangedOnError_of_cases d _ (Or.inl ⟨_, b3⟩),
      unchangedOnError_of_cases d _ (Or.inl ⟨_, a2 key narrative⟩),
      unchangedOnError_of_cases d _ (Or.inl ⟨_, a3 key⟩),
      unchangedOnError_of_cases d _ (Or.inl ⟨_, a4 planStatus⟩)⟩
  | some p =>
    obtain ⟨a1, a2, a3, a4⟩ := planOp_present d p hplan
    refine ⟨unchangedOnError_of_cases d _ (Or.inr (a1 phase)), ?_, ?_, ?_,
      unchangedOnError_of_cases d _ (Or.inr (a2 key narrative)),
      unchangedOnError_of_cases d _ (Or.inr (a3 key)),
      unchangedOnError_of_cases d _ (Or.inr (a4 planStatus))⟩
    · intro d1 e hr
      unfold Document.UpdatePhase at hr
      rw [hplan] at hr
      simp only at hr
      split at hr
      · simp only [Option.some.injEq, Prod.mk.injEq] at hr
        exact hr.1.symm
      · split at hr <;> simp at hr
    · intro d1 e hr
      unfold Document.UpdatePhaseStatus at hr
      rw [hplan] at hr
      simp only at hr
      split at hr
      · simp only [Option.some.injEq, Prod.mk.injEq] at hr
        exact hr.1.symm
      · split at hr <;> simp at hr
    · intro d1 e hr
      unfold Document.RemovePhase at hr
      rw [hplan] at hr
      simp only at hr
      split at hr
      · simp only [Option.some.injEq, Prod.mk.injEq] at hr
        exact hr.1.symm
      · split at hr
        · simp at hr
        · split at hr <;> simp at hr

/-- C4: on a document whose todo list is absent, `AddTodoItem`,
`UpdateTodoItem`, `UpdateTodoItemStatus` and `RemoveTodoItem` return
`ErrNoTodoList` for every item, status and index and leave the document
unchanged, and `GetTodoItems` returns the empty sequence. -/
theorem C4_todo_ops_on_absent_list (d : Document ι φ ν) (item : TodoItem ι)
    (status : ItemStatus) (i : Int) (h : d.TodoList = none) :
    d.AddTodoItem item = some (d, some DocError.ErrNoTodoList) ∧
    d.UpdateTodoItem i item = some (d, some DocError.ErrNoTodoList) ∧
    d.UpdateTodoItemStatus i status = some (d, some DocError.ErrNoTodoList) ∧
    d.RemoveTodoItem i = some (d, some DocError.ErrNoTodoList) ∧
    d.GetTodoItems = [] := by
  simp [Document.AddTodoItem, Document.UpdateTodoItem, Document.UpdateTodoItemStatus,
    Document.RemoveTodoItem, Document.GetTodoItems, h]

/-- C4, at a document without a todo list and the negative index -1. -/
theorem C4_todo_ops_on_absent_list_witness :
    sampleDoc.TodoList = none ∧
    (sampleDoc.AddTodoItem ⟨"pending", 5⟩ = some (sampleDoc, some DocError.ErrNoTodoList) ∧
      sampleDoc.UpdateTodoItem (-1) ⟨"pending", 5⟩ =
        some (sampleDoc, some DocError.ErrNoTodoList) ∧
      sampleDoc.UpdateTodoItemStatus (-1) "done" =
        some (sampleDoc, some DocError.ErrNoTodoList) ∧
      sampleDoc.RemoveTodoItem (-1) = some (sampleDoc, some DocError.ErrNoTodoList) ∧
      sampleDoc.GetTodoItems = []) :=
  ⟨rfl, C4_todo_ops_on_absent_list sampleDoc ⟨"pending", 5⟩ "done" (-1) rfl⟩

/-- C5: `AddPhase`, `AddNarrative`, `RemoveNarrative` and `UpdatePlanStatus`
each return, with the error `ErrNoPlan` exactly when the plan is absent and
with no error when it is present; and on a document whose plan is absent,
`GetPhases` returns the empty sequence and `GetNarratives` the nil mapping,
which has no entry. -/
theorem C5_plan_ops_NoPlan_iff (d : Document ι φ ν) (phase : Phase φ) (key : String)
    (narrative : ν) (status : PlanStatus) :
    ReturnsErrorIff (d.AddPhase phase) DocError.ErrNoPlan (d.Plan = none) ∧
    ReturnsErrorIff (d.AddNarrative key narrative) DocError.ErrNoPlan (d.Plan = none) ∧
    ReturnsErrorIff (d.RemoveNarrative key) DocError.ErrNoPlan (d.Plan = none) ∧
    ReturnsErrorIff (d.UpdatePlanStatus status) DocError.ErrNoPlan (d.Plan = none) ∧
    (d.Plan = none → d.GetPhases = [] ∧ d.GetNarratives = GoMap.nil ∧
      d.GetNarratives.size = 0 ∧ ∀ k, d.GetNarratives.lookup k = none) := by
  have hget : d.Plan = none → d.GetPhases = [] ∧ d.GetNarratives = GoMap.nil ∧
      d.GetNarratives.size = 0 ∧ ∀ k, d.GetNarratives.lookup k = none := by
    intro h
    simp [Document.GetPhases, Document.GetNarratives, GoMap.size, GoMap.lookup, h]
  by_cases hplan : d.Plan = none
  · obtain ⟨a1, a2, a3, a4⟩ := planOp_absent d hplan
    have mk : ∀ r : Outcome (Document ι φ ν), r = some (d, some DocError.ErrNoPlan) →
        ReturnsErrorIff r DocError.ErrNoPlan (d.Plan = none) :=
      fun r hr => ⟨d, _, hr, ⟨fun _ => hplan, fun _ => rfl⟩, fun h => absurd hplan h⟩
    exact ⟨mk _ (a1 phase), mk _ (a2 key narrative), mk _ (a3 key), mk _ (a4 status),
      hget⟩
  · have hsome : ∃ p, d.Plan = some p := by
      cases hp : d.Plan with
      | none => exact absurd hp hplan
      | some p => exact ⟨p, rfl⟩
    obtain ⟨p, hp⟩ := hsome
    obtain ⟨a1, a2, a3, a4⟩ := planOp_present d p hp
    have mk : ∀ r : Outcome (Document ι φ ν), (∃ d1, r = some (d1, none)) →
        ReturnsErrorIff r DocError.ErrNoPlan (d.Plan = none) :=
      fun r ⟨d1, hr⟩ =>
        ⟨d1, none, hr, ⟨fun h => (by cases h), fun h => absurd h hplan⟩, fun _ => rfl⟩
    exact ⟨mk _ (a1 phase), mk _ (a2 key narrative), mk _ (a3 key), mk _ (a4 status),
      hget⟩

/-! ## Narrative operations -/

theorem GoMap.lookup_eq_entries (m : GoMap ν) (key : String) :
    m.lookup key = m.entries.lookup key := by
  cases m <;> simp [GoMap.lookup, GoMap.entries]

theorem GoMap.size_eq_entries (m : GoMap ν) : m.size = m.entries.keys.card := by
  cases m <;> simp [GoMap.size, GoMap.entries]

theorem GoMap.delete_of_lookup_none (m : GoMap ν) (key : String)
    (h : m.lookup key = none) : m.delete key = m := by
  cases m with
  | nil => rfl
  | created es =>
    simp only [GoMap.lookup] at h
    simp only [GoMap.delete, GoMap.created.injEq]
    apply Finmap.ext_lookup
    intro x
    by_cases hx : x = key
    · subst hx
      rw [Finmap.lookup_erase, h]
    · exact Finmap.lookup_erase_ne hx

theorem GoMap.lookup_delete_self (m : GoMap ν) (key : String) :
    (m.delete key).lookup key = none := by
  cases m <;> simp [GoMap.lookup, GoMap.delete]

theorem GoMap.lookup_delete_ne (m : GoMap ν) (key k1 : String) (h : k1 ≠ key) :
    (m.delete key).lookup k1 = m.lookup k1 := by
  cases m with
  | nil => rfl
  | created es => exact Finmap.lookup_erase_ne h

theorem Finmap_keys_insert_insert (es : Finmap (fun _ : String => ν)) (key : String)
    (v v2 : ν) : ((es.insert key v).insert key v2).keys = (es.insert key v).keys := by
  ext a
  simp only [Finmap.mem_keys, Finmap.mem_insert]
  tauto

/-- C6: on a document whose plan is present, whether or not its narrative
mapping has been created, `AddNarrative(k, v)` returns no error and afterwards
`GetNarratives()` maps `k` to `v` and has at every other key the entry, or the
absence of an entry, that it had before; when the mapping was nil, the result
is the one-entry mapping from `k` to `v`. -/
theorem C6_AddNarrative_get_after_put (d : Document ι φ ν) (p : Plan φ ν) (k : String)
    (v : ν) (hp : d.Plan = some p) :
    ∃ d1 : Document ι φ ν, d.AddNarrative k v = some (d1, none) ∧
      d1.GetNarratives.lookup k = some v ∧
      (∀ k1 : String, k1 ≠ k → d1.GetNarratives.lookup k1 = d.GetNarratives.lookup k1) ∧
      (p.Narratives = GoMap.nil →
        d1.GetNarratives = GoMap.created (Finmap.singleton k v) ∧
        d1.GetNarratives.size = 1) := by
  refine ⟨_, AddNarrative_present d p k v hp, ?_, ?_, ?_⟩
  · simp [Document.GetNarratives, GoMap.lookup]
  · intro k1 hk
    simp only [Document.GetNarratives, hp]
    rw [GoMap.lookup_eq_entries p.Narratives k1]
    exact Finmap.lookup_insert_of_ne _ hk
  · intro hnil
    have hins : (∅ : Finmap (fun _ : String => ν)).insert k v = Finmap.singleton k v := by
      apply Finmap.ext_lookup
      intro x
      by_cases hx : x = k
      · subst hx
        rw [Finmap.lookup_insert, Finmap.lookup_singleton_eq]
      · rw [Finmap.lookup_insert_of_ne _ hx, Finmap.lookup_empty]
        symm
        rw [Finmap.lookup_eq_none, Finmap.mem_singleton]
        exact hx
    simp only [Document.GetNarratives, hnil, GoMap.entries, hins, GoMap.size,
      Finmap.keys_singleton, Finset.card_singleton, and_self]

/-- C6, at the document whose plan has a nil narrative mapping and the key
`intro`. -/
theorem C6_AddNarrative_get_after_put_witness :
    sampleDoc.Plan = some samplePlan ∧
    ∃ d1 : Document Nat Nat String, sampleDoc.AddNarrative "intro" "text" = some (d1, none) ∧
      d1.GetNarratives.lookup "intro" = some "text" ∧
      (∀ k1 : String, k1 ≠ "intro" →
        d1.GetNarratives.lookup k1 = sampleDoc.GetNarratives.lookup k1) ∧
      (samplePlan.Narratives = GoMap.nil →
        d1.GetNarratives = GoMap.created (Finmap.singleton "intro" "text") ∧
        d1.GetNarratives.size = 1) :=
  ⟨rfl, C6_AddNarrative_get_after_put sampleDoc samplePlan "intro" "text" rfl⟩

theorem Document_eq_of_plan (d : Document ι φ ν) (p : Plan φ ν) (hp : d.Plan = some p) :
    ({ d with Plan := some p } : Document ι φ ν) = d := by
  cases d
  simp only at hp
  subst hp
  rfl

/-- C7: on a document whose plan is present, `RemoveNarrative(k)` returns no
error and afterwards `GetNarratives()` has no entry for `k` and at every other
key the entry it had before; if `k` had no entry before the call (also when the
mapping is nil) the document is unchanged; and a second `RemoveNarrative(k)`
right after the first returns no error and changes nothing. -/
theorem C7_RemoveNarrative_deletes_key (d : Document ι φ ν) (p : Plan φ ν) (k : String)
    (hp : d.Plan = some p) :
    ∃ d1 : Document ι φ ν, d.RemoveNarrative k = some (d1, none) ∧
      d1.GetNarratives.lookup k = none ∧
      (∀ k1 : String, k1 ≠ k → d1.GetNarratives.lookup k1 = d.GetNarratives.lookup k1) ∧
      (d.GetNarratives.lookup k = none → d1 = d) ∧
      d1.RemoveNarrative k = some (d1, none) := by
  have hrem : d.RemoveNarrative k =
      some ({ d with Plan := some { p with Narratives := p.Narratives.delete k } }, none) := by
    simp only [Document.RemoveNarrative, hp]
  refine ⟨_, hrem, ?_, ?_, ?_, ?_⟩
  · simp only [Document.GetNarratives]
    exact GoMap.lookup_delete_self p.Narratives k
  · intro k1 hk
    simp only [Document.GetNarratives, hp]
    exact GoMap.lookup_delete_ne p.Narratives k k1 hk
  · intro hnone
    simp only [Document.GetNarratives, hp] at hnone
    rw [GoMap.delete_of_lookup_none p.Narratives k hnone]
    exact Document_eq_of_plan d p hp
  · simp only [Document.RemoveNarrative]
    rw [GoMap.delete_of_lookup_none (p.Narratives.delete k) k
      (GoMap.lookup_delete_self p.Narratives k)]

/-- C7, at the document with the one narrative `intro` and that key. -/
theorem C7_RemoveNarrative_deletes_key_witness :
    narratedDoc.Plan = some narratedPlan ∧
    ∃ d1 : Document Nat Nat String, narratedDoc.RemoveNarrative "intro" = some (d1, none) ∧
      d1.GetNarratives.lookup "intro" = none ∧
      (∀ k1 : String, k1 ≠ "intro" →
        d1.GetNarratives.lookup k1 = narratedDoc.GetNarratives.lookup k1) ∧
      (narratedDoc.GetNarratives.lookup "intro" = none → d1 = narratedDoc) ∧
      d1.RemoveNarrative "intro" = some (d1, none) :=
  ⟨rfl, C7_RemoveNarrative_deletes_key narratedDoc narratedPlan "intro" rfl⟩

/-- C8: on a document whose plan is present, `AddNarrative(k, v)` followed by
`AddNarrative(k, v2)` leaves `GetNarratives()` mapping `k` to `v2`, with as
many entries as after the first call alone, and leaves the document that the
single call `AddNarrative(k, v2)` produces. -/
theorem C8_AddNarrative_overwrites (d : Document ι φ ν) (p : Plan φ ν) (k : String)
    (v v2 : ν) (hp : d.Plan = some p) :
    ∃ d1 d2 : Document ι φ ν, d.AddNarrative k v = some (d1, none) ∧
      d1.AddNarrative k v2 = some (d2, none) ∧
      d2.GetNarratives.lookup k = some v2 ∧
      d2.GetNarratives.size = d1.GetNarratives.size ∧
      d.AddNarrative k v2 = some (d2, none) := by
  have h2 : ({ d with Plan := some { p with
        Narratives := GoMap.created (p.Narratives.entries.insert k v) } } :
        Document ι φ ν).AddNarrative k v2 =
      some ({ d with Plan := some { p with
        Narratives := GoMap.created ((p.Narratives.entries.insert k v).insert k v2) } },
        none) :=
    AddNarrative_present _
      { p with Narratives := GoMap.created (p.Narratives.entries.insert k v) } k v2 rfl
  refine ⟨_, _, AddNarrative_present d p k v hp, h2, ?_, ?_, ?_⟩
  · simp [Document.GetNarratives, GoMap.lookup]
  · simp only [Document.GetNarratives, GoMap.size]
    rw [Finmap_keys_insert_insert]
  · rw [AddNarrative_present d p k v2 hp, Finmap.insert_insert]

/-- C8, at the document with the one narrative `intro`, overwriting that key
twice. -/
theorem C8_AddNarrative_overwrites_witness :
    narratedDoc.Plan = some narratedPlan ∧
    ∃ d1 d2 : Document Nat Nat String, narratedDoc.AddNarrative "intro" "one" = some (d1, none) ∧
      d1.AddNarrative "intro" "two" = some (d2, none) ∧
      d2.GetNarratives.lookup "intro" = some "two" ∧
      d2.GetNarratives.size = d1.GetNarratives.size ∧
      narratedDoc.AddNarrative "intro" "two" = some (d2, none) :=
  ⟨rfl, C8_AddNarrative_overwrites narratedDoc narratedPlan "intro" "one" "two" rfl⟩

/-! ## Todo-list operations -/

theorem UpdateItem_valid (l : TodoList ι) (i : Int) (upd : TodoItem ι → TodoItem ι)
    (h0 : 0 ≤ i) (hi : i < len l.Items) :
    ∃ old, l.Items[i.toNat]? = some old ∧
      l.UpdateItem i upd = ({ l with Items := l.Items.set i.toNat (upd old) }, none) := by
  have hlt := toNat_lt_length l.Items i h0 hi
  have hguard : ¬ (i < 0 ∨ i ≥ len l.Items) := by omega
  refine ⟨l.Items[i.toNat], List.getElem?_eq_getElem hlt, ?_⟩
  simp [TodoList.UpdateItem, hguard, List.getElem?_eq_getElem hlt]

theorem UpdateItem_invalid (l : TodoList ι) (i : Int) (upd : TodoItem ι → TodoItem ι)
    (h : i < 0 ∨ i ≥ len l.Items) :
    l.UpdateItem i upd = (l, some DocError.ErrInvalidIndex) := by
  simp [TodoList.UpdateItem, h]

theorem RemoveItem_valid (l : TodoList ι) (i : Int) (h0 : 0 ≤ i) (hi : i < len l.Items) :
    l.RemoveItem i = ({ l with Items := l.Items.eraseIdx i.toNat }, none) := by
  have hguard : ¬ (i < 0 ∨ i ≥ len l.Items) := by omega
  simp [TodoList.RemoveItem, hguard]

theorem RemoveItem_invalid (l : TodoList ι) (i : Int) (h : i < 0 ∨ i ≥ len l.Items) :
    l.RemoveItem i = (l, some DocError.ErrInvalidIndex) := by
  simp [TodoList.RemoveItem, h]

theorem Document_eq_of_todoList (d : Document ι φ ν) (l : TodoList ι)
    (hl : d.TodoList = some l) : ({ d with TodoList := some l } : Document ι φ ν) = d := by
  cases d
  simp only at hl
  subst hl
  rfl

/-- C11: on a document whose todo list is present with `N` items, for any item
`x`: if `0 <= i < N` then `UpdateTodoItem(i, x)` returns no error and
afterwards `GetTodoItems()` has length `N`, has `x` at position `i` and the
previous item at every other position; if `i < 0` or `i >= N` then it returns
`ErrInvalidIndex` and the document, so also the list, is unchanged. -/
theorem C11_UpdateTodoItem_replaces_or_rejects (d : Document ι φ ν) (l : TodoList ι)
    (i : Int) (x : TodoItem ι) (hl : d.TodoList = some l) :
    (0 ≤ i ∧ i < len l.Items →
      ∃ d1 : Document ι φ ν, d.UpdateTodoItem i x = some (d1, none) ∧
        d1.GetTodoItems.length = l.Items.length ∧
        d1.GetTodoItems[i.toNat]? = some x ∧
        (∀ j : Nat, j ≠ i.toNat → d1.GetTodoItems[j]? = l.Items[j]?)) ∧
    (i < 0 ∨ i ≥ len l.Items →
      d.UpdateTodoItem i x = some (d, some DocError.ErrInvalidIndex) ∧
        d.GetTodoItems = l.Items) := by
  constructor
  · rintro ⟨h0, hi⟩
    have hlt := toNat_lt_length l.Items i h0 hi
    obtain ⟨old, -, hupd⟩ := UpdateItem_valid l i (fun _ => x) h0 hi
    refine ⟨{ d with TodoList := some { l with Items := l.Items.set i.toNat x } }, ?_, ?_, ?_, ?_⟩
    · simp only [Document.UpdateTodoItem, hl, hupd]
    · simp [Document.GetTodoItems]
    · simp [Document.GetTodoItems, hlt]
    · intro j hj
      simp only [Document.GetTodoItems]
      exact List.getElem?_set_ne (Ne.symm hj)
  · intro h
    refine ⟨?_, by simp [Document.GetTodoItems, hl]⟩
    simp only [Document.UpdateTodoItem, hl, UpdateItem_invalid l i _ h]
    rw [Document_eq_of_todoList d l hl]

/-- C11, at the document with two todo items, index 1 and a new item. -/
theorem C11_UpdateTodoItem_replaces_or_rejects_witness :
    todoDoc.TodoList = some { Items := [⟨"pending", 0⟩, ⟨"pending", 1⟩] } ∧
    ((0 : Int) ≤ 1 ∧ (1 : Int) < len [(⟨"pending", 0⟩ : TodoItem Nat), ⟨"pending", 1⟩]) ∧
    ∃ d1 : Document Nat Nat String, todoDoc.UpdateTodoItem 1 ⟨"done", 8⟩ = some (d1, none) ∧
      d1.GetTodoItems.length = 2 ∧
      d1.GetTodoItems[(1 : Int).toNat]? = some ⟨"done", 8⟩ ∧
      (∀ j : Nat, j ≠ (1 : Int).toNat →
        d1.GetTodoItems[j]? = [(⟨"pending", 0⟩ : TodoItem Nat), ⟨"pending", 1⟩][j]?) :=
  ⟨rfl, by decide,
    (C11_UpdateTodoItem_replaces_or_rejects todoDoc
      { Items := [⟨"pending", 0⟩, ⟨"pending", 1⟩] } 1 ⟨"done", 8⟩ rfl).1 (by decide)⟩

/-- C12: on a document whose todo list is present with `N` items: if
`0 <= i < N` then `RemoveTodoItem(i)` returns no error and afterwards
`GetTodoItems()` has length `N - 1` and is the previous sequence with the item
at position `i` deleted, the others in their order; if `i < 0` or `i >= N`
then it returns an error and the document, so also the list and its length,
is unchanged. -/
theorem C12_RemoveTodoItem_deletes_or_rejects (d : Document ι φ ν) (l : TodoList ι)
    (i : Int) (hl : d.TodoList = some l) :
    (0 ≤ i ∧ i < len l.Items →
      ∃ d1 : Document ι φ ν, d.RemoveTodoItem i = some (d1, none) ∧
        d1.GetTodoItems.length + 1 = l.Items.length ∧
        (∀ j : Nat, j < i.toNat → d1.GetTodoItems[j]? = l.Items[j]?) ∧
        (∀ j : Nat, i.toNat ≤ j → d1.GetTodoItems[j]? = l.Items[j + 1]?) ∧
        d1.GetTodoItems = l.Items.take i.toNat ++ l.Items.drop (i.toNat + 1)) ∧
    (i < 0 ∨ i ≥ len l.Items →
      d.RemoveTodoItem i = some (d, some DocError.ErrInvalidIndex) ∧
        d.GetTodoItems = l.Items) := by
  constructor
  · rintro ⟨h0, hi⟩
    have hlt := toNat_lt_length l.Items i h0 hi
    refine ⟨{ d with TodoList := some { l with Items := l.Items.eraseIdx i.toNat } },
      ?_, ?_, ?_, ?_, ?_⟩
    · simp only [Document.RemoveTodoItem, hl, RemoveItem_valid l i h0 hi]
    · simp only [Document.GetTodoItems]
      rw [List.length_eraseIdx_of_lt hlt]
      omega
    · intro j hj
      simp only [Document.GetTodoItems]
      exact List.getElem?_eraseIdx_of_lt _ _ _ hj
    · intro j hj
      simp only [Document.GetTodoItems]
      exact List.getElem?_eraseIdx_of_ge _ _ _ hj
    · simp only [Document.GetTodoItems]
      exact List.eraseIdx_eq_take_drop_succ _ _
  · intro h
    refine ⟨?_, by simp [Document.GetTodoItems, hl]⟩
    simp only [Document.RemoveTodoItem, hl, RemoveItem_invalid l i h]
    rw [Document_eq_of_todoList d l hl]

/-- C12, at the document with two todo items and index 0. -/
theorem C12_RemoveTodoItem_deletes_or_rejects_witness :
    todoDoc.TodoList = some { Items := [⟨"pending", 0⟩, ⟨"pending", 1⟩] } ∧
    ((0 : Int) ≤ 0 ∧ (0 : Int) < len [(⟨"pending", 0⟩ : TodoItem Nat), ⟨"pending", 1⟩]) ∧
    ∃ d1 : Document Nat Nat String, todoDoc.RemoveTodoItem 0 = some (d1, none) ∧
      d1.GetTodoItems.length + 1 = 2 ∧
      (∀ j : Nat, j < (0 : Int).toNat →
        d1.GetTodoItems[j]? = [(⟨"pending", 0⟩ : TodoItem Nat), ⟨"pending", 1⟩][j]?) ∧
      (∀ j : Nat, (0 : Int).toNat ≤ j →
        d1.GetTodoItems[j]? = [(⟨"pending", 0⟩ : TodoItem Nat), ⟨"pending", 1⟩][j + 1]?) ∧
      d1.GetTodoItems =
        [(⟨"pending", 0⟩ : TodoItem Nat), ⟨"pending", 1⟩].take (0 : Int).toNat ++
          [(⟨"pending", 0⟩ : TodoItem Nat), ⟨"pending", 1⟩].drop ((0 : Int).toNat + 1) :=
  ⟨rfl, by decide,
    (C12_RemoveTodoItem_deletes_or_rejects todoDoc
      { Items := [⟨"pending", 0⟩, ⟨"pending", 1⟩] } 0 rfl).1 (by decide)⟩

/-- C13: on a document whose todo list is present with `N` items, for an index
`i` with `0 <= i < N` and any status `s`, `UpdateTodoItemStatus(i, s)` returns
no error and afterwards the item at position `i` has `Status = s` and the rest
of its fields as before, every item at another position is unchanged, and the
length is still `N`. -/
theorem C13_UpdateTodoItemStatus_changes_only_status (d : Document ι φ ν)
    (l : TodoList ι) (i : Int) (s : ItemStatus) (hl : d.TodoList = some l)
    (h0 : 0 ≤ i) (hi : i < len l.Items) :
    ∃ (d1 : Document ι φ ν) (old new : TodoItem ι),
      d.UpdateTodoItemStatus i s = some (d1, none) ∧
      l.Items[i.toNat]? = some old ∧ d1.GetTodoItems[i.toNat]? = some new ∧
      new.Status = s ∧ new.Rest = old.Rest ∧
      (∀ j : Nat, j ≠ i.toNat → d1.GetTodoItems[j]? = l.Items[j]?) ∧
      d1.GetTodoItems.length = l.Items.length := by
  have hlt := toNat_lt_length l.Items i h0 hi
  obtain ⟨old, hold, hupd⟩ :=
    UpdateItem_valid l i (fun item => { item with Status := s }) h0 hi
  refine ⟨{ d with TodoList := some { l with
      Items := l.Items.set i.toNat { old with Status := s } } },
    old, { old with Status := s }, ?_, hold, ?_, rfl, rfl, ?_, ?_⟩
  · simp only [Document.UpdateTodoItemStatus, hl, hupd]
  · simp [Document.GetTodoItems, hlt]
  · intro j hj
    simp only [Document.GetTodoItems]
    exact List.getElem?_set_ne (Ne.symm hj)
  · simp [Document.GetTodoItems]

/-- C13, at the document whose first todo item is pending, index 0 and the
status `done`. -/
theorem C13_UpdateTodoItemStatus_changes_only_status_witness :
    ∃ (d1 : Document Nat Nat String) (old new : TodoItem Nat),
      todoDoc.UpdateTodoItemStatus 0 "done" = some (d1, none) ∧
      [(⟨"pending", 0⟩ : TodoItem Nat), ⟨"pending", 1⟩][(0 : Int).toNat]? = some old ∧
      d1.GetTodoItems[(0 : Int).toNat]? = some new ∧
      new.Status = "done" ∧ new.Rest = old.Rest ∧
      (∀ j : Nat, j ≠ (0 : Int).toNat →
        d1.GetTodoItems[j]? = [(⟨"pending", 0⟩ : TodoItem Nat), ⟨"pending", 1⟩][j]?) ∧
      d1.GetTodoItems.length = [(⟨"pending", 0⟩ : TodoItem Nat), ⟨"pending", 1⟩].length :=
  C13_UpdateTodoItemStatus_changes_only_status todoDoc
    { Items := [⟨"pending", 0⟩, ⟨"pending", 1⟩] } 0 "done" rfl (by decide) (by decide)

/-- C15: on a document whose todo list is present with items `xs`, for any item
`x`, `AddTodoItem(x)` returns no error and afterwards `GetTodoItems()` is `xs`
followed by `x`: the earlier items keep their positions and `x` is last. -/
theorem C15_AddTodoItem_appends (d : Document ι φ ν) (l : TodoList ι) (x : TodoItem ι)
    (hl : d.TodoList = some l) :
    ∃ d1 : Document ι φ ν, d.AddTodoItem x = some (d1, none) ∧
      d1.GetTodoItems = l.Items ++ [x] ∧
      d1.GetTodoItems.length = l.Items.length + 1 ∧
      d1.GetTodoItems[l.Items.length]? = some x ∧
      (∀ j : Nat, j < l.Items.length → d1.GetTodoItems[j]? = l.Items[j]?) := by
  refine ⟨{ d with TodoList := some (l.AddItem x) }, ?_, rfl, ?_, ?_, ?_⟩
  · simp only [Document.AddTodoItem, hl]
  · simp [Document.GetTodoItems, TodoList.AddItem]
  · simp [Document.GetTodoItems, TodoList.AddItem]
  · intro j hj
    simp only [Document.GetTodoItems, TodoList.AddItem]
    exact List.getElem?_append_left hj

/-- C15, at the document with two todo items and a third item. -/
theorem C15_AddTodoItem_appends_witness :
    todoDoc.TodoList = some { Items := [⟨"pending", 0⟩, ⟨"pending", 1⟩] } ∧
    ∃ d1 : Document Nat Nat String, todoDoc.AddTodoItem ⟨"pending", 2⟩ = some (d1, none) ∧
      d1.GetTodoItems = [⟨"pending", 0⟩, ⟨"pending", 1⟩] ++ [⟨"pending", 2⟩] ∧
      d1.GetTodoItems.length = 2 + 1 ∧
      d1.GetTodoItems[2]? = some ⟨"pending", 2⟩ ∧
      (∀ j : Nat, j < 2 →
        d1.GetTodoItems[j]? = [(⟨"pending", 0⟩ : TodoItem Nat), ⟨"pending", 1⟩][j]?) :=
  ⟨rfl, C15_AddTodoItem_appends todoDoc { Items := [⟨"pending", 0⟩, ⟨"pending", 1⟩] }
    ⟨"pending", 2⟩ rfl⟩

/-! ## Appending a phase and setting the plan status -/

theorem AddPhase_present (d : Document ι φ ν) (p : Plan φ ν) (q : Phase φ)
    (hp : d.Plan = some p) :
    d.AddPhase q = some ({ d with Plan := some { p with Phases := p.Phases ++ [q] } }, none) := by
  simp only [Document.AddPhase, hp]

/-- C14: on a document whose plan is present with phases `ps`, for any phase
`q`, `AddPhase(q)` returns no error and afterwards `GetPhases()` is `ps`
followed by `q`: the length grows by exactly one, `q` is the last element and
every earlier element keeps its position. -/
theorem C14_AddPhase_appends (d : Document ι φ ν) (p : Plan φ ν) (q : Phase φ)
    (hp : d.Plan = some p) :
    ∃ d1 : Document ι φ ν, d.AddPhase q = some (d1, none) ∧
      d1.GetPhases = p.Phases ++ [q] ∧
      d1.GetPhases.length = p.Phases.length + 1 ∧
      d1.GetPhases[p.Phases.length]? = some q ∧
      (∀ j : Nat, j < p.Phases.length → d1.GetPhases[j]? = p.Phases[j]?) := by
  refine ⟨_, AddPhase_present d p q hp, rfl, ?_, ?_, ?_⟩
  · simp [Document.GetPhases]
  · simp [Document.GetPhases]
  · intro j hj
    simp only [Document.GetPhases]
    exact List.getElem?_append_left hj

/-- C14, at the three-phase document and a fourth phase. -/
theorem C14_AddPhase_appends_witness :
    sampleDoc.Plan = some samplePlan ∧
    ∃ d1 : Document Nat Nat String, sampleDoc.AddPhase ⟨"pending", 3⟩ = some (d1, none) ∧
      d1.GetPhases = samplePlan.Phases ++ [⟨"pending", 3⟩] ∧
      d1.GetPhases.length = samplePlan.Phases.length + 1 ∧
      d1.GetPhases[samplePlan.Phases.length]? = some ⟨"pending", 3⟩ ∧
      (∀ j : Nat, j < samplePlan.Phases.length → d1.GetPhases[j]? = samplePlan.Phases[j]?) :=
  ⟨rfl, C14_AddPhase_appends sampleDoc samplePlan ⟨"pending", 3⟩ rfl⟩

/-- C16: on a document whose plan is present, for any plan status `s`,
whatever the previous status, `UpdatePlanStatus(s)` returns no error and
afterwards the plan is present with `Status = s`, while its phase sequence, its
narrative mapping and the document's todo list are exactly as before. -/
theorem C16_UpdatePlanStatus_sets_only_status (d : Document ι φ ν) (p : Plan φ ν)
    (s : PlanStatus) (hp : d.Plan = some p) :
    ∃ (d1 : Document ι φ ν) (p1 : Plan φ ν), d.UpdatePlanStatus s = some (d1, none) ∧
      d1.Plan = some p1 ∧ p1.Status = s ∧
      p1.Phases = p.Phases ∧ d1.GetPhases = d.GetPhases ∧
      p1.Narratives = p.Narratives ∧ d1.GetNarratives = d.GetNarratives ∧
      d1.TodoList = d.TodoList ∧ d1.GetTodoItems = d.GetTodoItems := by
  refine ⟨{ d with Plan := some { p with Status := s } }, { p with Status := s },
    ?_, rfl, rfl, rfl, ?_, rfl, ?_, rfl, ?_⟩
  · simp only [Document.UpdatePlanStatus, hp]
  · simp only [Document.GetPhases, hp]
  · simp only [Document.GetNarratives, hp]
  · simp only [Document.GetTodoItems]

/-- C16, at the document with one narrative and an empty todo list, moving the
plan status from `draft` to `approved`. -/
theorem C16_UpdatePlanStatus_sets_only_status_witness :
    narratedDoc.Plan = some narratedPlan ∧
    ∃ (d1 : Document Nat Nat String) (p1 : Plan Nat String),
      narratedDoc.UpdatePlanStatus "approved" = some (d1, none) ∧
      d1.Plan = some p1 ∧ p1.Status = "approved" ∧
      p1.Phases = narratedPlan.Phases ∧ d1.GetPhases = narratedDoc.GetPhases ∧
      p1.Narratives = narratedPlan.Narratives ∧
      d1.GetNarratives = narratedDoc.GetNarratives ∧
      d1.TodoList = narratedDoc.TodoList ∧ d1.GetTodoItems = narratedDoc.GetTodoItems :=
  ⟨rfl, C16_UpdatePlanStatus_sets_only_status narratedDoc narratedPlan "approved" rfl⟩

/-! ## Which parts of the document an operation can touch -/

theorem phaseOp_shape (d d1 : Document ι φ ν) (e : Option DocError) (i : Int)
    (q : Phase φ) (s : PhaseStatus)
    (hr : d.AddPhase q = some (d1, e) ∨ d.UpdatePhase i q = some (d1, e) ∨
      d.UpdatePhaseStatus i s = some (d1, e) ∨ d.RemovePhase i = some (d1, e)) :
    d1 = d ∨ ∃ (p : Plan φ ν) (ps : List (Phase φ)),
      d.Plan = some p ∧ d1 = { d with Plan := some { p with Phases := ps } } := by
  cases hplan : d.Plan with
  | none =>
    obtain ⟨a1, -, -, -⟩ := planOp_absent d hplan
    obtain ⟨b1, b2, b3⟩ := phaseOp_invalid d i (Or.inl hplan)
    rw [a1 q, b1 q, b2 s, b3] at hr
    simp only [Option.some.injEq, Prod.mk.injEq] at hr
    rcases hr with hr | hr | hr | hr <;> exact Or.inl hr.1.symm
  | some p =>
    rcases hr with hr | hr | hr | hr
    · rw [AddPhase_present d p q hplan] at hr
      simp only [Option.some.injEq, Prod.mk.injEq] at hr
      exact Or.inr ⟨p, _, rfl, hr.1.symm⟩
    · unfold Document.UpdatePhase at hr
      rw [hplan] at hr
      simp only at hr
      split at hr
      · simp only [Option.some.injEq, Prod.mk.injEq] at hr
        exact Or.inl hr.1.symm
      · split at hr
        · simp at hr
        · simp only [Option.some.injEq, Prod.mk.injEq] at hr
          exact Or.inr ⟨p, _, rfl, hr.1.symm⟩
    · unfold Document.UpdatePhaseStatus at hr
      rw [hplan] at hr
      simp only at hr
      split at hr
      · simp only [Option.some.injEq, Prod.mk.injEq] at hr
        exact Or.inl hr.1.symm
      · split at hr
        · simp at hr
        · simp only [Option.some.injEq, Prod.mk.injEq] at hr
          exact Or.inr ⟨p, _, rfl, hr.1.symm⟩
    · unfold Document.RemovePhase at hr
      rw [hplan] at hr
      simp only at hr
      split at hr
      · simp only [Option.some.injEq, Prod.mk.injEq] at hr
        exact Or.inl hr.1.symm
      · split at hr
        · simp at hr
        · split at hr
          · simp at hr
          · simp only [Option.some.injEq, Prod.mk.injEq] at hr
            exact Or.inr ⟨p, _, rfl, hr.1.symm⟩

theorem narrativeOp_shape (d d1 : Document ι φ ν) (e : Option DocError) (k : String)
    (v : ν)
    (hr : d.AddNarrative k v = some (d1, e) ∨ d.RemoveNarrative k = some (d1, e)) :
    d1 = d ∨ ∃ (p : Plan φ ν) (m : GoMap ν),
      d.Plan = some p ∧ d1 = { d with Plan := some { p with Narratives := m } } := by
  cases hplan : d.Plan with
  | none =>
    obtain ⟨-, a2, a3, -⟩ := planOp_absent d hplan
    rw [a2 k v, a3 k] at hr
    simp only [Option.some.injEq, Prod.mk.injEq, or_self] at hr
    exact Or.inl hr.1.symm
  | some p =>
    rcases hr with hr | hr
    · rw [AddNarrative_present d p k v hplan] at hr
      simp only [Option.some.injEq, Prod.mk.injEq] at hr
      exact Or.inr ⟨p, _, rfl, hr.1.symm⟩
    · simp only [Document.RemoveNarrative, hplan, Option.some.injEq, Prod.mk.injEq] at hr
      exact Or.inr ⟨p, _, rfl, hr.1.symm⟩

theorem statusOp_shape (d d1 : Document ι φ ν) (e : Option DocError) (s : PlanStatus)
    (hr : d.UpdatePlanStatus s = some (d1, e)) :
    d1 = d ∨ ∃ p : Plan φ ν,
      d.Plan = some p ∧ d1 = { d with Plan := some { p with Status := s } } := by
  cases hplan : d.Plan with
  | none =>
    obtain ⟨-, -, -, a4⟩ := planOp_absent d hplan
    rw [a4 s] at hr
    simp only [Option.some.injEq, Prod.mk.injEq] at hr
    exact Or.inl hr.1.symm
  | some p =>
    simp only [Document.UpdatePlanStatus, hplan, Option.some.injEq, Prod.mk.injEq] at hr
    exact Or.inr ⟨p, rfl, hr.1.symm⟩

theorem todoOp_shape (d d1 : Document ι φ ν) (e : Option DocError) (i : Int)
    (x : TodoItem ι) (s : ItemStatus)
    (hr : d.AddTodoItem x = some (d1, e) ∨ d.UpdateTodoItem i x = some (d1, e) ∨
      d.UpdateTodoItemStatus i s = some (d1, e) ∨ d.RemoveTodoItem i = some (d1, e)) :
    d1 = d ∨ ∃ l l1 : TodoList ι,
      d.TodoList = some l ∧ d1 = { d with TodoList := some l1 } := by
  cases hl : d.TodoList with
  | none =>
    simp only [Document.AddTodoItem, Document.UpdateTodoItem, Document.UpdateTodoItemStatus,
      Document.RemoveTodoItem, hl, Option.some.injEq, Prod.mk.injEq, or_self] at hr
    exact Or.inl hr.1.symm
  | some l =>
    simp only [Document.AddTodoItem, Document.UpdateTodoItem, Document.UpdateTodoItemStatus,
      Document.RemoveTodoItem, hl, Option.some.injEq, Prod.mk.injEq] at hr
    rcases hr with hr | hr | hr | hr <;> exact Or.inr ⟨l, _, rfl, hr.1.symm⟩

theorem keeps_of_phaseOp_shape (d d1 : Document ι φ ν)
    (h : d1 = d ∨ ∃ (p : Plan φ ν) (ps : List (Phase φ)),
      d.Plan = some p ∧ d1 = { d with Plan := some { p with Phases := ps } }) :
    SameTodoList d d1 ∧ SameNarrativesAndStatus d d1 ∧ SamePresence d d1 := by
  rcases h with h | ⟨p, ps, hp, h⟩
  · subst h
    exact ⟨⟨rfl, rfl⟩, ⟨rfl, rfl, rfl⟩, ⟨rfl, rfl⟩⟩
  · subst h
    simp [SameTodoList, SameNarrativesAndStatus, SamePresence, Document.GetTodoItems,
      Document.GetNarratives, hp]

theorem keeps_of_narrativeOp_shape (d d1 : Document ι φ ν)
    (h : d1 = d ∨ ∃ (p : Plan φ ν) (m : GoMap ν),
      d.Plan = some p ∧ d1 = { d with Plan := some { p with Narratives := m } }) :
    SameTodoList d d1 ∧ SamePhasesAndStatus d d1 ∧ SamePresence d d1 := by
  rcases h with h | ⟨p, m, hp, h⟩
  · subst h
    exact ⟨⟨rfl, rfl⟩, ⟨rfl, rfl, rfl⟩, ⟨rfl, rfl⟩⟩
  · subst h
    simp [SameTodoList, SamePhasesAndStatus, SamePresence, Document.GetTodoItems,
      Document.GetPhases, hp]

theorem keeps_of_statusOp_shape (d d1 : Document ι φ ν) (s : PlanStatus)
    (h : d1 = d ∨ ∃ p : Plan φ ν,
      d.Plan = some p ∧ d1 = { d with Plan := some { p with Status := s } }) :
    SameTodoList d d1 ∧ SamePresence d d1 := by
  rcases h with h | ⟨p, hp, h⟩
  · subst h
    exact ⟨⟨rfl, rfl⟩, ⟨rfl, rfl⟩⟩
  · subst h
    simp [SameTodoList, SamePresence, Document.GetTodoItems, hp]

theorem keeps_of_todoOp_shape (d d1 : Document ι φ ν)
    (h : d1 = d ∨ ∃ l l1 : TodoList ι,
      d.TodoList = some l ∧ d1 = { d with TodoList := some l1 }) :
    SamePresence d d1 := by
  rcases h with h | ⟨l, l1, hl, h⟩
  · subst h
    exact ⟨rfl, rfl⟩
  · subst h
    simp [SamePresence, hl]

/-- C17: whenever it returns, none of the seven plan operations changes the
todo list or the result of `GetTodoItems()`; the four phase operations change
neither the narrative mapping nor the plan status; the two narrative
operations change neither the phase sequence nor the plan status; and none of
the eleven mutating operations makes an absent plan or todo list present or a
present one absent. -/
theorem C17_sub_aggregates_independent (d : Document ι φ ν) (i : Int) (q : Phase φ)
    (s : PhaseStatus) (k : String) (v : ν) (planStatus : PlanStatus) (x : TodoItem ι)
    (itemStatus : ItemStatus) :
    (KeepsOnReturn d (d.AddPhase q) SameTodoList ∧
      KeepsOnReturn d (d.UpdatePhase i q) SameTodoList ∧
      KeepsOnReturn d (d.UpdatePhaseStatus i s) SameTodoList ∧
      KeepsOnReturn d (d.RemovePhase i) SameTodoList ∧
      KeepsOnReturn d (d.AddNarrative k v) SameTodoList ∧
      KeepsOnReturn d (d.RemoveNarrative k) SameTodoList ∧
      KeepsOnReturn d (d.UpdatePlanStatus planStatus) SameTodoList) ∧
    (KeepsOnReturn d (d.AddPhase q) SameNarrativesAndStatus ∧
      KeepsOnReturn d (d.UpdatePhase i q) SameNarrativesAndStatus ∧
      KeepsOnReturn d (d.UpdatePhaseStatus i s) SameNarrativesAndStatus ∧
      KeepsOnReturn d (d.RemovePhase i) SameNarrativesAndStatus) ∧
    (KeepsOnReturn d (d.AddNarrative k v) SamePhasesAndStatus ∧
      KeepsOnReturn d (d.RemoveNarrative k) SamePhasesAndStatus) ∧
    (KeepsOnReturn d (d.AddPhase q) SamePresence ∧
      KeepsOnReturn d (d.UpdatePhase i q) SamePresence ∧
      KeepsOnReturn d (d.UpdatePhaseStatus i s) SamePresence ∧
      KeepsOnReturn d (d.RemovePhase i) SamePresence ∧
      KeepsOnReturn d (d.AddNarrative k v) SamePresence ∧
      KeepsOnReturn d (d.RemoveNarrative k) SamePresence ∧
      KeepsOnReturn d (d.UpdatePlanStatus planStatus) SamePresence ∧
      KeepsOnReturn d (d.AddTodoItem x) SamePresence ∧
      KeepsOnReturn d (d.UpdateTodoItem i x) SamePresence ∧
      KeepsOnReturn d (d.UpdateTodoItemStatus i itemStatus) SamePresence ∧
      KeepsOnReturn d (d.RemoveTodoItem i) SamePresence) := by
  have ph1 := fun d1 e hr =>
    keeps_of_phaseOp_shape d d1 (phaseOp_shape d d1 e i q s (Or.inl hr))
  have ph2 := fun d1 e hr =>
    keeps_of_phaseOp_shape d d1 (phaseOp_shape d d1 e i q s (Or.inr (Or.inl hr)))
  have ph3 := fun d1 e hr =>
    keeps_of_phaseOp_shape d d1 (phaseOp_shape d d1 e i q s (Or.inr (Or.inr (Or.inl hr))))
  have ph4 := fun d1 e hr =>
    keeps_of_phaseOp_shape d d1 (phaseOp_shape d d1 e i q s (Or.inr (Or.inr (Or.inr hr))))
  have na1 := fun d1 e hr =>
    keeps_of_narrativeOp_shape d d1 (narrativeOp_shape d d1 e k v (Or.inl hr))
  have na2 := fun d1 e hr =>
    keeps_of_narrativeOp_shape d d1 (narrativeOp_shape d d1 e k v (Or.inr hr))
  have st := fun d1 e hr =>
    keeps_of_statusOp_shape d d1 planStatus (statusOp_shape d d1 e planStatus hr)
  have td1 := fun d1 e hr =>
    keeps_of_todoOp_shape d d1 (todoOp_shape d d1 e i x itemStatus (Or.inl hr))
  have td2 := fun d1 e hr =>
    keeps_of_todoOp_shape d d1 (todoOp_shape d d1 e i x itemStatus (Or.inr (Or.inl hr)))
  have td3 := fun d1 e hr =>
    keeps_of_todoOp_shape d d1
      (todoOp_shape d d1 e i x itemStatus (Or.inr (Or.inr (Or.inl hr))))
  have td4 := fun d1 e hr =>
    keeps_of_todoOp_shape d d1
      (todoOp_shape d d1 e i x itemStatus (Or.inr (Or.inr (Or.inr hr))))
  exact ⟨⟨fun d1 e hr => (ph1 d1 e hr).1, fun d1 e hr => (ph2 d1 e hr).1,
      fun d1 e hr => (ph3 d1 e hr).1, fun d1 e hr => (ph4 d1 e hr).1,
      fun d1 e hr => (na1 d1 e hr).1, fun d1 e hr => (na2 d1 e hr).1,
      fun d1 e hr => (st d1 e hr).1⟩,
    ⟨fun d1 e hr => (ph1 d1 e hr).2.1, fun d1 e hr => (ph2 d1 e hr).2.1,
      fun d1 e hr => (ph3 d1 e hr).2.1, fun d1 e hr => (ph4 d1 e hr).2.1⟩,
    ⟨fun d1 e hr => (na1 d1 e hr).2.1, fun d1 e hr => (na2 d1 e hr).2.1⟩,
    ⟨fun d1 e hr => (ph1 d1 e hr).2.2, fun d1 e hr => (ph2 d1 e hr).2.2,
      fun d1 e hr => (ph3 d1 e hr).2.2, fun d1 e hr => (ph4 d1 e hr).2.2,
      fun d1 e hr => (na1 d1 e hr).2.2, fun d1 e hr => (na2 d1 e hr).2.2,
      fun d1 e hr => (st d1 e hr).2, td1, td2, td3, td4⟩⟩

/-! ## Relations between the phase operations -/

theorem plan_cases (d : Document ι φ ν) (i : Int) :
    (d.Plan = none ∨ ∃ p, d.Plan = some p ∧ (i < 0 ∨ i ≥ len p.Phases)) ∨
    ∃ p, d.Plan = some p ∧ 0 ≤ i ∧ i < len p.Phases := by
  cases hplan : d.Plan with
  | none => exact Or.inl (Or.inl rfl)
  | some p =>
    by_cases h : i < 0 ∨ i ≥ len p.Phases
    · exact Or.inl (Or.inr ⟨p, rfl, h⟩)
    · exact Or.inr ⟨p, rfl, by omega, by omega⟩

/-- C18: `UpdatePhaseStatus(i, s)` has the outcome, error and document, of
`UpdatePhase(i, q)` where `q` is the phase now at position `i` with its
`Status` set to `s`; when `i` is not a valid position nothing is asked of `q`,
and both calls return `ErrInvalidIndex` and leave the document as it is. -/
theorem C18_UpdatePhaseStatus_is_UpdatePhase (d : Document ι φ ν) (i : Int)
    (s : PhaseStatus) (q : Phase φ)
    (hq : ∀ old : Phase φ, 0 ≤ i → d.GetPhases[i.toNat]? = some old →
      q = { old with Status := s }) :
    d.UpdatePhaseStatus i s = d.UpdatePhase i q ∧
    ((d.Plan = none ∨ i < 0 ∨ i ≥ len d.GetPhases) →
      d.UpdatePhaseStatus i s = some (d, some DocError.ErrInvalidIndex) ∧
      d.UpdatePhase i q = some (d, some DocError.ErrInvalidIndex)) := by
  rcases plan_cases d i with hinv | ⟨p, hp, h0, hi⟩
  · obtain ⟨b1, b2, -⟩ := phaseOp_invalid d i hinv
    exact ⟨by rw [b1 q, b2 s], fun _ => ⟨b2 s, b1 q⟩⟩
  · obtain ⟨old, hold, hst⟩ := UpdatePhaseStatus_valid d p i s hp h0 hi
    have hget : d.GetPhases = p.Phases := by simp [Document.GetPhases, hp]
    have hqe : q = { old with Status := s } := hq old h0 (by rw [hget]; exact hold)
    refine ⟨by rw [hst, UpdatePhase_valid d p i q hp h0 hi, hqe], ?_⟩
    intro hbad
    rw [hget] at hbad
    rcases hbad with h | h | h
    · rw [hp] at h
      cases h
    · omega
    · omega

/-- C18, at the three-phase document, index 1, the status `done` and the phase
`p1` with status `done`. -/
theorem C18_UpdatePhaseStatus_is_UpdatePhase_witness :
    (∀ old : Phase Nat, (0 : Int) ≤ 1 → sampleDoc.GetPhases[(1 : Int).toNat]? = some old →
      (⟨"done", 1⟩ : Phase Nat) = { old with Status := "done" }) ∧
    (sampleDoc.UpdatePhaseStatus 1 "done" = sampleDoc.UpdatePhase 1 ⟨"done", 1⟩ ∧
      ((sampleDoc.Plan = none ∨ (1 : Int) < 0 ∨ (1 : Int) ≥ len sampleDoc.GetPhases) →
        sampleDoc.UpdatePhaseStatus 1 "done" =
          some (sampleDoc, some DocError.ErrInvalidIndex) ∧
        sampleDoc.UpdatePhase 1 ⟨"done", 1⟩ =
          some (sampleDoc, some DocError.ErrInvalidIndex))) :=
  have hq : ∀ old : Phase Nat, (0 : Int) ≤ 1 →
      sampleDoc.GetPhases[(1 : Int).toNat]? = some old →
      (⟨"done", 1⟩ : Phase Nat) = { old with Status := "done" } := by
    intro old _ h
    have h1 : sampleDoc.GetPhases[(1 : Int).toNat]? = some ⟨"pending", 1⟩ := rfl
    rw [h1] at h
    cases h
    rfl
  ⟨hq, C18_UpdatePhaseStatus_is_UpdatePhase sampleDoc 1 "done" ⟨"done", 1⟩ hq⟩

theorem eraseIdx_append_singleton_last {α : Type} (ps : List α) (q : α) :
    (ps ++ [q]).eraseIdx ps.length = ps := by
  rw [List.eraseIdx_append_of_length_le (Nat.le_refl _)]
  simp

theorem eraseIdx_append_singleton_first {α : Type} (ps : List α) (q : α)
    (h : 1 ≤ ps.length) : (ps ++ [q]).eraseIdx 0 = ps.tail ++ [q] := by
  cases ps with
  | nil => simp at h
  | cons a t => rfl

/-- C19: on a document whose plan is present with phases `ps` of length `N`,
`AddPhase(q)` followed by `RemovePhase(N)` both return no error and leave
`GetPhases()` equal to `ps`; and for `N >= 1`, `AddPhase(q)` followed by
`RemovePhase(0)` returns no error and leaves `GetPhases()` equal to `ps`
without its first element, followed by `q`. -/
theorem C19_AddPhase_then_RemovePhase (d : Document ι φ ν) (p : Plan φ ν) (q : Phase φ)
    (hp : d.Plan = some p) (hlen : len p.Phases < maxInt) :
    ∃ d1 d2 : Document ι φ ν, d.AddPhase q = some (d1, none) ∧
      d1.RemovePhase (len p.Phases) = some (d2, none) ∧ d2.GetPhases = p.Phases ∧
      (1 ≤ p.Phases.length →
        ∃ d3 : Document ι φ ν, d1.RemovePhase 0 = some (d3, none) ∧
          d3.GetPhases = p.Phases.tail ++ [q]) := by
  have hlen1 : len (p.Phases ++ [q]) = len p.Phases + 1 := by
    simp [len]
  have hnn : (0 : Int) ≤ len p.Phases := by
    simp [len]
  have hto : (len p.Phases).toNat = p.Phases.length := by
    simp [len]
  have hrem := RemovePhase_valid
    ({ d with Plan := some { p with Phases := p.Phases ++ [q] } } : Document ι φ ν)
    { p with Phases := p.Phases ++ [q] } (len p.Phases) rfl hnn
    (by simp only [hlen1]; omega) (by simp only [hlen1]; omega)
  refine ⟨_, _, AddPhase_present d p q hp, hrem, ?_, ?_⟩
  · simp only [Document.GetPhases, hto]
    exact eraseIdx_append_singleton_last p.Phases q
  · intro hN
    have hrem0 := RemovePhase_valid
      ({ d with Plan := some { p with Phases := p.Phases ++ [q] } } : Document ι φ ν)
      { p with Phases := p.Phases ++ [q] } 0 rfl (le_refl 0)
      (by simp only [hlen1]; omega) (by simp only [hlen1]; omega)
    refine ⟨_, hrem0, ?_⟩
    simp only [Document.GetPhases, Int.toNat_zero]
    exact eraseIdx_append_singleton_first p.Phases q hN

/-- C19, at the three-phase document and a fourth phase. -/
theorem C19_AddPhase_then_RemovePhase_witness :
    sampleDoc.Plan = some samplePlan ∧ len samplePlan.Phases < maxInt ∧
    ∃ d1 d2 : Document Nat Nat String, sampleDoc.AddPhase ⟨"pending", 3⟩ = some (d1, none) ∧
      d1.RemovePhase (len samplePlan.Phases) = some (d2, none) ∧
      d2.GetPhases = samplePlan.Phases ∧
      (1 ≤ samplePlan.Phases.length →
        ∃ d3 : Document Nat Nat String, d1.RemovePhase 0 = some (d3, none) ∧
          d3.GetPhases = samplePlan.Phases.tail ++ [⟨"pending", 3⟩]) :=
  ⟨rfl, by decide,
    C19_AddPhase_then_RemovePhase sampleDoc samplePlan ⟨"pending", 3⟩ rfl (by decide)⟩

/-! ## Absence of run-time faults -/

theorem guarded_accesses (ps : List (Phase φ)) (i : Int) (q : Phase φ) (s : PhaseStatus)
    (hguard : ¬ (i < 0 ∨ i ≥ len ps)) (hlen : len ps ≤ maxInt) :
    (0 ≤ i ∧ i < len ps) ∧ (0 ≤ i ∧ i ≤ len ps) ∧ wrapInt (i + 1) = i + 1 ∧
    (0 ≤ wrapInt (i + 1) ∧ wrapInt (i + 1) ≤ len ps) ∧
    storeAt ps i q ≠ none ∧
    modifyAt ps i (fun ph => { ph with Status := s }) ≠ none ∧
    sliceTo ps i ≠ none ∧ sliceFrom ps (wrapInt (i + 1)) ≠ none := by
  have h0 : 0 ≤ i := by omega
  have hi : i < len ps := by omega
  have hw : wrapInt (i + 1) = i + 1 := wrapInt_of_inRange (i + 1) (by omega) (by omega)
  obtain ⟨old, -, hmod⟩ := modifyAt_inBounds ps i (fun ph => { ph with Status := s }) h0 hi
  refine ⟨⟨h0, hi⟩, ⟨h0, by omega⟩, hw, ⟨by omega, by omega⟩, ?_, ?_, ?_, ?_⟩
  · rw [storeAt_inBounds ps i q h0 hi]
    simp
  · rw [hmod]
    simp
  · rw [sliceTo_inBounds ps i h0 (by omega)]
    simp
  · rw [hw, sliceFrom_inBounds ps (i + 1) (by omega) (by omega)]
    simp

theorem phaseOp_no_fault (d : Document ι φ ν) (i : Int) (q : Phase φ) (s : PhaseStatus)
    (hlen : len d.GetPhases ≤ maxInt) :
    d.UpdatePhase i q ≠ none ∧ d.UpdatePhaseStatus i s ≠ none ∧ d.RemovePhase i ≠ none := by
  rcases plan_cases d i with hinv | ⟨p, hp, h0, hi⟩
  · obtain ⟨b1, b2, b3⟩ := phaseOp_invalid d i hinv
    rw [b1 q, b2 s, b3]
    simp
  · have hget : d.GetPhases = p.Phases := by simp [Document.GetPhases, hp]
    rw [hget] at hlen
    obtain ⟨old, -, hst⟩ := UpdatePhaseStatus_valid d p i s hp h0 hi
    rw [UpdatePhase_valid d p i q hp h0 hi, hst, RemovePhase_valid d p i hp h0 hi hlen]
    simp

theorem narrativeOp_no_fault (d : Document ι φ ν) (k : String) (v : ν) :
    d.AddNarrative k v ≠ none ∧ d.RemoveNarrative k ≠ none := by
  cases hplan : d.Plan with
  | none =>
    obtain ⟨-, a2, a3, -⟩ := planOp_absent d hplan
    rw [a2 k v, a3 k]
    simp
  | some p =>
    obtain ⟨-, a2, a3, -⟩ := planOp_present d p hplan
    obtain ⟨d1, h1⟩ := a2 k v
    obtain ⟨d2, h2⟩ := a3 k
    rw [h1, h2]
    simp

/-- C20: for every document whose phase sequence has a length that fits Go's
`int` (as every slice does) and every integer index, the largest `int` and the
negative ones included, `UpdatePhase`, `UpdatePhaseStatus`, `RemovePhase`,
`AddNarrative` and `RemoveNarrative` return rather than fault; whenever the
index check lets a call through, the index is in `[0, len)`, `index+1` does
not wrap around and both are in `[0, len]`, so the element accesses and both
sub-slices are in bounds; on a plan whose narrative mapping is nil,
`AddNarrative` returns no error and `RemoveNarrative` returns no error and
leaves the document as it is. -/
theorem C20_no_operation_faults (d : Document ι φ ν) (i : Int) (q : Phase φ)
    (s : PhaseStatus) (k : String) (v : ν) (hlen : len d.GetPhases ≤ maxInt) :
    (d.UpdatePhase i q ≠ none ∧ d.UpdatePhaseStatus i s ≠ none ∧ d.RemovePhase i ≠ none ∧
      d.AddNarrative k v ≠ none ∧ d.RemoveNarrative k ≠ none) ∧
    (∀ p : Plan φ ν, d.Plan = some p → ¬ (i < 0 ∨ i ≥ len p.Phases) →
      (0 ≤ i ∧ i < len p.Phases) ∧ (0 ≤ i ∧ i ≤ len p.Phases) ∧
      wrapInt (i + 1) = i + 1 ∧
      (0 ≤ wrapInt (i + 1) ∧ wrapInt (i + 1) ≤ len p.Phases) ∧
      storeAt p.Phases i q ≠ none ∧
      modifyAt p.Phases i (fun ph => { ph with Status := s }) ≠ none ∧
      sliceTo p.Phases i ≠ none ∧ sliceFrom p.Phases (wrapInt (i + 1)) ≠ none) ∧
    (∀ p : Plan φ ν, d.Plan = some p → p.Narratives = GoMap.nil →
      (∃ d1 : Document ι φ ν, d.AddNarrative k v = some (d1, none)) ∧
      d.RemoveNarrative k = some (d, none)) := by
  obtain ⟨f1, f2, f3⟩ := phaseOp_no_fault d i q s hlen
  obtain ⟨f4, f5⟩ := narrativeOp_no_fault d k v
  refine ⟨⟨f1, f2, f3, f4, f5⟩, ?_, ?_⟩
  · intro p hp hguard
    have hget : d.GetPhases = p.Phases := by simp [Document.GetPhases, hp]
    rw [hget] at hlen
    exact guarded_accesses p.Phases i q s hguard hlen
  · intro p hp hnil
    refine ⟨⟨_, AddNarrative_present d p k v hp⟩, ?_⟩
    have hdel : p.Narratives.delete k = p.Narratives := by
      rw [hnil]
      rfl
    simp only [Document.RemoveNarrative, hp, hdel]
    rw [Document_eq_of_plan d p hp]

/-- C20, at the three-phase document, whose narrative mapping is nil, and the
largest `int` as index. -/
theorem C20_no_operation_faults_witness :
    len sampleDoc.GetPhases ≤ maxInt ∧
    ((sampleDoc.UpdatePhase maxInt ⟨"done", 7⟩ ≠ none ∧
      sampleDoc.UpdatePhaseStatus maxInt "done" ≠ none ∧
      sampleDoc.RemovePhase maxInt ≠ none ∧
      sampleDoc.AddNarrative "intro" "text" ≠ none ∧
      sampleDoc.RemoveNarrative "intro" ≠ none) ∧
    (∀ p : Plan Nat String, sampleDoc.Plan = some p →
      ¬ (maxInt < 0 ∨ maxInt ≥ len p.Phases) →
      (0 ≤ maxInt ∧ maxInt < len p.Phases) ∧ (0 ≤ maxInt ∧ maxInt ≤ len p.Phases) ∧
      wrapInt (maxInt + 1) = maxInt + 1 ∧
      (0 ≤ wrapInt (maxInt + 1) ∧ wrapInt (maxInt + 1) ≤ len p.Phases) ∧
      storeAt p.Phases maxInt ⟨"done", 7⟩ ≠ none ∧
      modifyAt p.Phases maxInt (fun ph => { ph with Status := "done" }) ≠ none ∧
      sliceTo p.Phases maxInt ≠ none ∧ sliceFrom p.Phases (wrapInt (maxInt + 1)) ≠ none) ∧
    (∀ p : Plan Nat String, sampleDoc.Plan = some p → p.Narratives = GoMap.nil →
      (∃ d1 : Document Nat Nat String,
        sampleDoc.AddNarrative "intro" "text" = some (d1, none)) ∧
      sampleDoc.RemoveNarrative "intro" = some (sampleDoc, none))) :=
  ⟨by decide,
    C20_no_operation_faults sampleDoc maxInt ⟨"done", 7⟩ "done" "intro" "text" (by decide)⟩

end Core
